import Mathlib

/-!
Verification development for the TwinCAT TcPOU extraction subsystem of
chunkhound (`src/chunkhound/parsers/twincat/twincat_parser.py` and
`src/chunkhound/parsers/twincat/xml_extractor.py`).

The grammar engine (Lark) is out of scope of the subsystem: it is modelled
as an oracle `String → Except String LNode` returning either a typed parse
tree (`LNode`, mirroring `lark.Tree`/`lark.Token` with positional metadata)
or an error message (mirroring `LarkError`).  All line numbers and character
offsets are embedded as `Int`/`Nat` matching Python's unbounded integers.
-/

/-- Python truthiness / blank-ness helpers. `isPySpace` covers the characters
Python's `str.strip()` removes (ASCII whitespace). -/
def isPySpace (c : Char) : Bool :=
  c = ' ' || c = '\t' || c = '\n' || c = '\x0d' || c = '\x0b' || c = '\x0c'

/-- Python `str.strip()`. -/
def pyStrip (s : String) : String :=
  ⟨((s.data.dropWhile isPySpace).reverse.dropWhile isPySpace).reverse⟩

/-- Truthiness of `s and s.strip()` for a Python string: non-empty and not
whitespace-only. -/
def pyNonBlank (s : String) : Bool :=
  !s.isEmpty && !(pyStrip s).isEmpty

/-- Truthiness of an optional Python string (`if x:` with `x : str | None`). -/
def optTruthy (o : Option String) : Bool :=
  match o with
  | some s => !s.isEmpty
  | none => false

/-- Python `or` on two optionals (left if truthy, else right). -/
def pyOr {α : Type} (a b : Option α) : Option α :=
  match a with
  | some x => some x
  | none => b

/-- Number of newline characters in a string (Python `s.count("\n")`). -/
def countNl (s : String) : Int :=
  ((s.data.filter (fun c => c = '\n')).length : Int)

/-- ASCII lower-casing, as Python `str.lower()` on the identifiers involved. -/
def pyLower (s : String) : String := ⟨s.data.map Char.toLower⟩

/-- ASCII upper-casing, as Python `str.upper()` on the identifiers involved. -/
def pyUpper (s : String) : String := ⟨s.data.map Char.toUpper⟩

/-- A metadata value as stored in a chunk's metadata dict: a string, a
boolean, or Python `None`. -/
inductive MValue where
  | str (s : String)
  | bool (b : Bool)
  | nil
deriving DecidableEq, Repr

/-- Wrap `str | None`. -/
def MValue.ofOptStr (o : Option String) : MValue :=
  match o with
  | some s => .str s
  | none => .nil

/-- Metadata dicts are insertion-ordered key/value lists, like Python dicts. -/
abbrev Metadata := List (String × MValue)

/-- `{**m, k: v}`: replace `k` in place if present, else append. -/
def dictSet (m : Metadata) (k : String) (v : MValue) : Metadata :=
  if m.any (fun p => p.1 = k) then
    m.map (fun p => if p.1 = k then (k, v) else p)
  else m ++ [(k, v)]

/-- Lookup in a metadata dict (first binding). -/
def dictGet (m : Metadata) (k : String) : Option MValue :=
  match m with
  | [] => none
  | (k2, v) :: rest => if k2 = k then some v else dictGet rest k

/-- `ChunkType` members used by the TwinCAT parser
(`chunkhound.core.types.common.ChunkType`). -/
inductive ChunkType where
  | PROGRAM
  | FUNCTION_BLOCK
  | FUNCTION
  | METHOD
  | ACTION
  | PROPERTY
  | VARIABLE
  | FIELD
  | BLOCK
  | COMMENT
deriving DecidableEq, Repr

/-- Python `ChunkType.X.name` (the enum member name). -/
def ChunkType.pyName : ChunkType → String
  | .PROGRAM => "PROGRAM"
  | .FUNCTION_BLOCK => "FUNCTION_BLOCK"
  | .FUNCTION => "FUNCTION"
  | .METHOD => "METHOD"
  | .ACTION => "ACTION"
  | .PROPERTY => "PROPERTY"
  | .VARIABLE => "VARIABLE"
  | .FIELD => "FIELD"
  | .BLOCK => "BLOCK"
  | .COMMENT => "COMMENT"

/-- The universal pipeline's concept tags. -/
inductive UniversalConcept where
  | DEFINITION
  | BLOCK
  | COMMENT
deriving DecidableEq, Repr

/-- Persisted chunk record (`chunkhound.core.models.chunk.Chunk`, the fields
the TwinCAT parser populates; `language` is always TWINCAT and elided). -/
structure Chunk where
  symbol : String
  start_line : Int
  end_line : Int
  code : String
  chunk_type : ChunkType
  file_id : Nat
  file_path : Option String
  metadata : Metadata
deriving DecidableEq, Repr

/-- Pipeline chunk record (`chunkhound.parsers.universal_engine.UniversalChunk`). -/
structure UniversalChunk where
  concept : UniversalConcept
  name : String
  content : String
  start_line : Int
  end_line : Int
  metadata : Metadata
  language_node_type : String
deriving DecidableEq, Repr

/-- `SourceLocation` from `xml_extractor.py`: position of extracted content in
the original XML file (1-indexed line/column, 0-indexed offset). -/
structure SourceLocation where
  line : Int
  column : Int
  pos : Int
deriving DecidableEq, Repr

/-- `MethodContent` (also used for property accessors). -/
structure MethodContent where
  name : String
  id : String
  declaration : String
  implementation : String
  declaration_location : Option SourceLocation := none
  implementation_location : Option SourceLocation := none
deriving DecidableEq, Repr

/-- `ActionContent` (an action's declaration may be absent). -/
structure ActionContent where
  name : String
  id : String
  declaration : Option String
  implementation : String
  declaration_location : Option SourceLocation := none
  implementation_location : Option SourceLocation := none
deriving DecidableEq, Repr

/-- `PropertyContent`. -/
structure PropertyContent where
  name : String
  id : String
  declaration : String
  get : Option MethodContent := none
  set : Option MethodContent := none
  declaration_location : Option SourceLocation := none
deriving DecidableEq, Repr

/-- `POUContent`: the content tree extracted from one TcPOU file. -/
structure POUContent where
  name : String
  id : String
  pou_type : String
  declaration : String
  implementation : String
  actions : List ActionContent
  methods : List MethodContent
  properties : List PropertyContent
  declaration_location : Option SourceLocation := none
  implementation_location : Option SourceLocation := none
deriving DecidableEq, Repr

/-- Positional metadata of a Lark rule node (`node.meta`); `endLine` mirrors
`meta.end_line`, which may be absent. -/
structure LMeta where
  line : Int
  endLine : Option Int := none
deriving DecidableEq, Repr

/-- A Lark parse tree: rule nodes (`lark.Tree`, with a rule name, optional
positional metadata and children) and leaf tokens (`lark.Token`, with a
terminal type and text). -/
inductive LNode where
  | tree (data : String) (meta : Option LMeta) (children : List LNode)
  | token (ty : String) (val : String)

/-- The grammar engine as an oracle: a successful parse yields a tree, a
`LarkError` yields its message. -/
abbrev ParseOracle := String → Except String LNode

/-- `VAR_BLOCK_MAP`: var block keywords to semantic variable classes. -/
def varBlockMap (ty : String) : Option String :=
  if ty = "VAR_INPUT" then some "input"
  else if ty = "VAR_OUTPUT" then some "output"
  else if ty = "VAR_IN_OUT" then some "in_out"
  else if ty = "VAR_GLOBAL" then some "global"
  else if ty = "VAR_EXTERNAL" then some "external"
  else if ty = "VAR_TEMP" then some "temp"
  else if ty = "VAR_STAT" then some "static"
  else if ty = "VAR" then some "local"
  else none

/-- `_STATEMENT_KIND_MAP`: control-flow rule names to block kinds. -/
def statementKindMap (d : String) : Option String :=
  if d = "if_stmt" then some "if_block"
  else if d = "case_stmt" then some "case_block"
  else if d = "for_stmt" then some "for_loop"
  else if d = "while_stmt" then some "while_loop"
  else if d = "repeat_stmt" then some "repeat_loop"
  else none

/-- `_adjust_line_number`: CDATA-relative to XML-absolute. -/
def adjustLineNumber (line : Int) (location : Option SourceLocation) : Int :=
  match location with
  | none => line
  | some loc => line + (loc.line - 1)

/-- `_build_fqn`: `POUName[.MethodName|.ActionName].ElementName` (the method
and action parts are taken only when truthy, as in Python). -/
def buildFqn (pouName elementName : String) (methodName actionName : Option String) : String :=
  if optTruthy methodName then
    pouName ++ "." ++ methodName.getD "" ++ "." ++ elementName
  else if optTruthy actionName then
    pouName ++ "." ++ actionName.getD "" ++ "." ++ elementName
  else
    pouName ++ "." ++ elementName

/-- Children of a rule node (tokens have none). -/
def LNode.childrenOf : LNode → List LNode
  | .tree _ _ cs => cs
  | .token _ _ => []

/-- Rule name of a node (tokens have none in `lark`; unused for them). -/
def LNode.dataOf : LNode → String
  | .tree d _ _ => d
  | .token _ _ => ""

/-- `node.meta` as an option (`hasattr(node, "meta") and node.meta`). -/
def LNode.metaOf : LNode → Option LMeta
  | .tree _ m _ => m
  | .token _ _ => none

mutual

/-- `_find_nodes`: recursively find all rule nodes with the given rule name
(tokens are skipped, as in the `isinstance(child, Tree)` guard). -/
def findNodes (t : LNode) (rule : String) : List LNode :=
  match t with
  | .token _ _ => []
  | .tree d m cs =>
      (if d = rule then [LNode.tree d m cs] else []) ++ findNodesList cs rule
termination_by structural t

/-- The `for child in tree.children` loop of `_find_nodes`. -/
def findNodesList (cs : List LNode) (rule : String) : List LNode :=
  match cs with
  | [] => []
  | c :: rest => findNodes c rule ++ findNodesList rest rule
termination_by structural cs

end

/-- The child scan of `_get_token_value`. -/
def getTokenValueList (cs : List LNode) (tokenType : String) : Option String :=
  match cs with
  | [] => none
  | .token ty v :: rest =>
      if ty = tokenType then some v else getTokenValueList rest tokenType
  | .tree _ _ _ :: rest => getTokenValueList rest tokenType

/-- `_get_token_value`: first token of the given type among the children. -/
def getTokenValue (t : LNode) (tokenType : String) : Option String :=
  getTokenValueList t.childrenOf tokenType

/-- First token child (the `break` after the first `Token` in
`var_block_start` handling). -/
def firstToken : List LNode → Option (String × String)
  | [] => none
  | .token ty v :: _ => some (ty, v)
  | .tree _ _ _ :: rest => firstToken rest

/-- All token values among a child list. -/
def tokenVals : List LNode → List String
  | [] => []
  | .token _ v :: rest => v :: tokenVals rest
  | .tree _ _ _ :: rest => tokenVals rest

/-- All IDENTIFIER token values among a child list. -/
def identVals : List LNode → List String
  | [] => []
  | .token ty v :: rest =>
      (if ty = "IDENTIFIER" then [v] else []) ++ identVals rest
  | .tree _ _ _ :: rest => identVals rest

/-- The child fold of `_extract_string_type`: resolve the type name and the
optional size (later tokens overwrite earlier state). -/
def stringTypeAux : List LNode → String → Option String → String × Option String
  | [], nm, sz => (nm, sz)
  | .token ty v :: rest, nm, sz =>
      if ty = "STRING_TYPE" then stringTypeAux rest "STRING" sz
      else if ty = "WSTRING" then stringTypeAux rest "WSTRING" sz
      else if ty = "INTEGER" then stringTypeAux rest nm (some v)
      else stringTypeAux rest nm sz
  | .tree _ _ _ :: rest, nm, sz => stringTypeAux rest nm sz

/-- `_extract_string_type`: `STRING(n)` / `WSTRING(n)`, size kept only when
truthy (the `if size:` check). -/
def extractStringType (t : LNode) : String :=
  let (nm, sz) := stringTypeAux t.childrenOf "STRING" none
  match sz with
  | some s => if s ≠ "" then nm ++ "(" ++ s ++ ")" else nm
  | none => nm

/-- `_extract_integer_value`: concatenation of all token texts. -/
def extractIntegerValue (t : LNode) : String :=
  String.join (tokenVals t.childrenOf)

/-- The child scan of `_extract_array_bound`: first IDENTIFIER token or
`integer_value` child wins; default "0". -/
def arrayBoundAux : List LNode → String
  | [] => "0"
  | .token ty v :: rest => if ty = "IDENTIFIER" then v else arrayBoundAux rest
  | (c@(.tree d _ _)) :: rest =>
      if d = "integer_value" then extractIntegerValue c else arrayBoundAux rest

/-- `_extract_array_bound`. -/
def extractArrayBound (t : LNode) : String :=
  arrayBoundAux t.childrenOf

/-- The child scan of `_extract_array_range`. -/
def arrayRangeAux : List LNode → List String
  | [] => []
  | .token ty v :: rest =>
      (if ty = "IDENTIFIER" then [v] else []) ++ arrayRangeAux rest
  | (c@(.tree d _ _)) :: rest =>
      (if d = "array_bound" then [extractArrayBound c]
       else if d = "integer_value" then [extractIntegerValue c]
       else []) ++ arrayRangeAux rest

/-- `_extract_array_range`: bounds joined with "..". -/
def extractArrayRange (t : LNode) : String :=
  String.intercalate ".." (arrayRangeAux t.childrenOf)

mutual

/-- `_extract_type_spec`: resolve a type-spec node to its display string. -/
def extractTypeSpec (t : LNode) : String :=
  match t with
  | .token _ _ => "UNKNOWN"
  | .tree _ _ cs =>
      let parts := typeSpecParts cs
      if parts.isEmpty then "UNKNOWN" else String.intercalate " " parts
termination_by structural t

/-- The child loop of `_extract_type_spec`, producing the `parts` list. -/
def typeSpecParts (cs : List LNode) : List String :=
  match cs with
  | [] => []
  | .token _ v :: rest => v :: typeSpecParts rest
  | .tree d mm cc :: rest =>
      (if d = "primitive_type" then tokenVals cc
       else if d = "string_type_with_size" then [extractStringType (.tree d mm cc)]
       else if d = "array_type" then [extractArrayType (.tree d mm cc)]
       else if d = "pointer_type" then ["POINTER TO " ++ extractTypeSpec (.tree d mm cc)]
       else if d = "reference_type" then ["REFERENCE TO " ++ extractTypeSpec (.tree d mm cc)]
       else if d = "user_type" then identVals cc
       else if d = "type_spec" then [extractTypeSpec (.tree d mm cc)]
       else []) ++ typeSpecParts rest
termination_by structural cs

/-- `_extract_array_type`: `ARRAY[r1, r2] OF element`. -/
def extractArrayType (t : LNode) : String :=
  match t with
  | .token _ _ => "ARRAY[] OF UNKNOWN"
  | .tree _ _ cs =>
      let (ranges, elementType) := arrayTypeAux cs [] "UNKNOWN"
      "ARRAY[" ++ String.intercalate ", " ranges ++ "] OF " ++ elementType
termination_by structural t

/-- The child loop of `_extract_array_type` (last `type_spec` child wins as
the element type). -/
def arrayTypeAux (cs : List LNode) (ranges : List String) (elementType : String) :
    List String × String :=
  match cs with
  | [] => (ranges, elementType)
  | .tree d mm cc :: rest =>
      if d = "array_range" then
        arrayTypeAux rest (ranges ++ [extractArrayRange (.tree d mm cc)]) elementType
      else if d = "type_spec" then
        arrayTypeAux rest ranges (extractTypeSpec (.tree d mm cc))
      else arrayTypeAux rest ranges elementType
  | .token _ _ :: rest => arrayTypeAux rest ranges elementType
termination_by structural cs

end

/-- `node.meta.line` with default 1 (`var_decl.meta.line if ... else 1`). -/
def nodeLine (t : LNode) : Int :=
  match t.metaOf with
  | some m => m.line
  | none => 1

/-- One optional metadata entry, added only when the name is truthy
(`if action_name: metadata["action_name"] = action_name`). -/
def optEntry (key : String) (v : Option String) : Metadata :=
  match v with
  | some s => if s ≠ "" then [(key, MValue.str s)] else []
  | none => []

/-- The child loop of `_extract_var_declaration_chunk`: identifiers count as
variable names only while no type has been seen; `hw_location` sets the
hardware address when its token is truthy; `type_spec` sets the data type. -/
def varDeclFold (cs : List LNode) (names : List String)
    (dataType hwAddress : Option String) :
    List String × Option String × Option String :=
  match cs with
  | [] => (names, dataType, hwAddress)
  | .token ty v :: rest =>
      if ty = "IDENTIFIER" ∧ dataType = none then
        varDeclFold rest (names ++ [v]) dataType hwAddress
      else
        varDeclFold rest names dataType hwAddress
  | (c@(.tree d _ _)) :: rest =>
      if d = "hw_location" then
        match getTokenValue c "HW_ADDRESS" with
        | some h =>
            if h ≠ "" then varDeclFold rest names dataType (some h)
            else varDeclFold rest names dataType hwAddress
        | none => varDeclFold rest names dataType hwAddress
      else if d = "type_spec" then
        varDeclFold rest names (some (extractTypeSpec c)) hwAddress
      else
        varDeclFold rest names dataType hwAddress

/-- Reconstructed declaration code `"name1, name2 [AT address] : Type;"`. -/
def varDeclCode (names : List String) (dataType hwAddress : Option String) : String :=
  String.intercalate ", " names
    ++ (match hwAddress with
        | some h => if h ≠ "" then " AT " ++ h else ""
        | none => "")
    ++ " : "
    ++ (match dataType with
        | some s => if s ≠ "" then s else "UNKNOWN"
        | none => "UNKNOWN")
    ++ ";"

/-- `_extract_var_declaration_chunk`: one chunk per declared identifier. -/
def extractVarDeclarationChunk (varDecl : LNode) (content : POUContent)
    (fileId : Option Nat) (filePath : Option String)
    (varClass : String) (retain persistent constant : Bool)
    (declarationLocation : Option SourceLocation)
    (actionName methodName : Option String) : List Chunk :=
  let line := nodeLine varDecl
  let location := pyOr declarationLocation content.declaration_location
  let adjustedLine := adjustLineNumber line location
  let fold := varDeclFold varDecl.childrenOf [] none none
  let code := varDeclCode fold.1 fold.2.1 fold.2.2
  let isGlobal := varClass = "global" ∨ varClass = "external"
  let chunkType := if isGlobal then ChunkType.VARIABLE else ChunkType.FIELD
  let kind := if isGlobal then "variable" else "field"
  let metadata : Metadata :=
    [("kind", .str kind),
     ("pou_type", .str content.pou_type),
     ("pou_name", .str content.name),
     ("var_class", .str varClass),
     ("data_type", .ofOptStr fold.2.1),
     ("hw_address", .ofOptStr fold.2.2),
     ("retain", .bool retain),
     ("persistent", .bool persistent),
     ("constant", .bool constant)]
    ++ optEntry "action_name" actionName
    ++ optEntry "method_name" methodName
  fold.1.map (fun nm =>
    { symbol := buildFqn content.name nm methodName actionName
      start_line := adjustedLine
      end_line := adjustedLine
      code := code
      chunk_type := chunkType
      file_id := fileId.getD 0
      file_path := filePath
      metadata := metadata })

/-- The token loop of the `var_qualifier` branch: RETAIN / PERSISTENT /
CONSTANT set their flags. -/
def qualFold (cs : List LNode) (retain persistent constant : Bool) :
    Bool × Bool × Bool :=
  match cs with
  | [] => (retain, persistent, constant)
  | .token ty _ :: rest =>
      if ty = "RETAIN" then qualFold rest true persistent constant
      else if ty = "PERSISTENT" then qualFold rest retain true constant
      else if ty = "CONSTANT" then qualFold rest retain persistent true
      else qualFold rest retain persistent constant
  | .tree _ _ _ :: rest => qualFold rest retain persistent constant

/-- The child loop over one `var_block` in `_extract_variable_chunks_from_tree`:
state (class and qualifier flags) is updated sequentially, and each
`var_declaration` child emits chunks with the state current at that point. -/
def varBlockFold (cs : List LNode) (content : POUContent)
    (fileId : Option Nat) (filePath : Option String)
    (location : Option SourceLocation) (actionName methodName : Option String)
    (varClass : String) (retain persistent constant : Bool) : List Chunk :=
  match cs with
  | [] => []
  | (c@(.tree d _ cc)) :: rest =>
      if d = "var_block_start" then
        let varClass2 :=
          match firstToken cc with
          | some (ty, v) => (varBlockMap ty).getD (pyLower v)
          | none => varClass
        varBlockFold rest content fileId filePath location actionName methodName
          varClass2 retain persistent constant
      else if d = "var_qualifier" then
        let q := qualFold cc retain persistent constant
        varBlockFold rest content fileId filePath location actionName methodName
          varClass q.1 q.2.1 q.2.2
      else if d = "var_declaration" then
        extractVarDeclarationChunk c content fileId filePath varClass retain
          persistent constant location actionName methodName
        ++ varBlockFold rest content fileId filePath location actionName methodName
          varClass retain persistent constant
      else
        varBlockFold rest content fileId filePath location actionName methodName
          varClass retain persistent constant
  | .token _ _ :: rest =>
      varBlockFold rest content fileId filePath location actionName methodName
        varClass retain persistent constant

/-- The loop over all `var_block` nodes. -/
def varBlocksChunks (blocks : List LNode) (content : POUContent)
    (fileId : Option Nat) (filePath : Option String)
    (location : Option SourceLocation) (actionName methodName : Option String) :
    List Chunk :=
  match blocks with
  | [] => []
  | b :: rest =>
      varBlockFold b.childrenOf content fileId filePath location actionName
        methodName "local" false false false
      ++ varBlocksChunks rest content fileId filePath location actionName methodName

/-- `_extract_variable_chunks_from_tree`. -/
def extractVariableChunksFromTree (tree : LNode) (content : POUContent)
    (fileId : Option Nat) (filePath : Option String)
    (declarationLocation : Option SourceLocation)
    (actionName methodName : Option String) : List Chunk :=
  let location := pyOr declarationLocation content.declaration_location
  varBlocksChunks (findNodes tree "var_block") content fileId filePath location
    actionName methodName

/-- The characters Python's `str.splitlines()` breaks on. -/
def isLineBreak (c : Char) : Bool :=
  c = '\n' || c = '\x0d' || c = '\x0b' || c = '\x0c' ||
  c = '\x1c' || c = '\x1d' || c = '\x1e' || c = '\x85' ||
  c = ' ' || c = ' '

/-- Python `str.splitlines()` (no trailing empty line; `\r\n` is one break). -/
def pySplitlinesAux : List Char → List Char → List String
  | [], acc => if acc.isEmpty then [] else [⟨acc.reverse⟩]
  | '\x0d' :: '\n' :: rest, acc => ⟨acc.reverse⟩ :: pySplitlinesAux rest []
  | c :: rest, acc =>
      if isLineBreak c then ⟨acc.reverse⟩ :: pySplitlinesAux rest []
      else pySplitlinesAux rest (c :: acc)

/-- Python `str.splitlines()`. -/
def pySplitlines (s : String) : List String :=
  pySplitlinesAux s.data []

/-- Python list slice `l[a:b]` for a non-negative start index `a` and an
arbitrary integer stop `b` (a negative stop counts from the end). -/
def pySlice {α : Type} (l : List α) (a : Nat) (b : Int) : List α :=
  let stop : Nat := if b < 0 then ((l.length : Int) + b).toNat else b.toNat
  (l.take stop).drop a

/-- `_reconstruct_code_from_lines`: slice the source by 1-based inclusive
line numbers and re-join with newlines. -/
def reconstructCodeFromLines (source : String) (startLine endLine : Int) : String :=
  let lines := pySplitlines source
  let startIdx : Nat := (max 0 (startLine - 1)).toNat
  let endIdx : Int := min (lines.length : Int) endLine
  String.intercalate "\n" (pySlice lines startIdx endIdx)

mutual

/-- `_find_statement_nodes`: all control-flow statement nodes (rule name in
`_STATEMENT_KIND_MAP`), parents before their nested statements. -/
def findStatementNodes (t : LNode) : List LNode :=
  match t with
  | .token _ _ => []
  | .tree d m cs =>
      (if (statementKindMap d).isSome then [LNode.tree d m cs] else [])
      ++ findStatementNodesList cs
termination_by structural t

/-- The child loop of `_find_statement_nodes`. -/
def findStatementNodesList (cs : List LNode) : List LNode :=
  match cs with
  | [] => []
  | c :: rest => findStatementNodes c ++ findStatementNodesList rest
termination_by structural cs

end

/-- `node.meta.end_line or start_line` (Python `or`: `None` and 0 fall back). -/
def effectiveEndLine (m : LMeta) : Int :=
  match m.endLine with
  | some e => if e = 0 then m.line else e
  | none => m.line

/-- `_create_block_chunk`: BLOCK chunk for one control-flow statement node,
or nothing when the node has no positional metadata. -/
def createBlockChunk (node : LNode) (implementation : String)
    (implementationLocation : Option SourceLocation)
    (pouName pouType : String) (fileId : Option Nat) (filePath : Option String)
    (actionName methodName : Option String) : Option Chunk :=
  match node.metaOf with
  | none => none
  | some m =>
      let startLine := m.line
      let endLine := effectiveEndLine m
      let code := reconstructCodeFromLines implementation startLine endLine
      let adjustedStart := adjustLineNumber startLine implementationLocation
      let adjustedEnd := adjustLineNumber endLine implementationLocation
      let kind := (statementKindMap node.dataOf).getD "block"
      let symbol :=
        buildFqn pouName (kind ++ "_" ++ toString adjustedStart) methodName actionName
      let metadata : Metadata :=
        [("kind", .str kind), ("pou_type", .str pouType), ("pou_name", .str pouName)]
        ++ optEntry "action_name" actionName
        ++ optEntry "method_name" methodName
      some
        { symbol := symbol
          start_line := adjustedStart
          end_line := adjustedEnd
          code := code
          chunk_type := ChunkType.BLOCK
          file_id := fileId.getD 0
          file_path := filePath
          metadata := metadata }

/-- The statement-node loop of `_extract_blocks_from_implementation`. -/
def blockChunksOfNodes (nodes : List LNode) (implementation : String)
    (implementationLocation : Option SourceLocation)
    (pouName pouType : String) (fileId : Option Nat) (filePath : Option String)
    (actionName methodName : Option String) : List Chunk :=
  match nodes with
  | [] => []
  | n :: rest =>
      (createBlockChunk n implementation implementationLocation pouName pouType
        fileId filePath actionName methodName).toList
      ++ blockChunksOfNodes rest implementation implementationLocation pouName
        pouType fileId filePath actionName methodName

/-- The error context of an implementation parse failure. -/
def implErrorContext (pouName : String) (actionName methodName : Option String) : String :=
  if optTruthy methodName then "method '" ++ methodName.getD "" ++ "'"
  else if optTruthy actionName then "action '" ++ actionName.getD "" ++ "'"
  else "FUNCTION '" ++ pouName ++ "'"

/-- `_extract_blocks_from_implementation`: parse the body; on failure append
one error message and emit nothing, on success emit one BLOCK chunk per
control-flow statement node.  Returns the chunks and the errors appended. -/
def extractBlocksFromImplementation (implOracle : ParseOracle)
    (implementation : String) (implementationLocation : Option SourceLocation)
    (pouName pouType : String) (fileId : Option Nat) (filePath : Option String)
    (actionName methodName : Option String) : List Chunk × List String :=
  match implOracle implementation with
  | .error e =>
      ([], ["Implementation parse error in "
            ++ implErrorContext pouName actionName methodName ++ ": " ++ e])
  | .ok tree =>
      (blockChunksOfNodes (findStatementNodes tree) implementation
        implementationLocation pouName pouType fileId filePath actionName
        methodName, [])

/-- First index `k` such that `cs[k] = '*'` and `cs[k+1] = ')'` (the lazy
`[\s\S]*?\*\)` completion of `BLOCK_COMMENT_RE`). -/
def findCloseLen : List Char → Option Nat
  | '*' :: ')' :: _ => some 0
  | _ :: rest => (findCloseLen rest).map (fun k => k + 1)
  | [] => none

/-- Non-overlapping leftmost matches of `BLOCK_COMMENT_RE`
(`\(\*[\s\S]*?\*\)`) as (start offset, length) pairs.  The scan consumes
at least one character per step, so any `fuel ≥ cs.length` yields the full
match list; the fuel only makes the recursion structural. -/
def blockMatchesGo (fuel : Nat) (cs : List Char) (pos : Nat) : List (Nat × Nat) :=
  match fuel with
  | 0 => []
  | fuel + 1 =>
      match cs with
      | '(' :: '*' :: rest =>
          match findCloseLen rest with
          | some k =>
              (pos, k + 4) :: blockMatchesGo fuel (rest.drop (k + 2)) (pos + k + 4)
          | none => blockMatchesGo fuel ('*' :: rest) (pos + 1)
      | _ :: rest => blockMatchesGo fuel rest (pos + 1)
      | [] => []

/-- Non-overlapping leftmost matches of `LINE_COMMENT_RE` (`//[^\n]*`),
fuelled the same way: at `//` the match runs to the end of the line and the
scan resumes after it, otherwise the scan advances one character. -/
def lineMatchesGo (fuel : Nat) (cs : List Char) (pos : Nat) : List (Nat × Nat) :=
  match fuel, cs with
  | 0, _ => []
  | _ + 1, [] => []
  | fuel + 1, c :: rest =>
      if c = '/' ∧ rest.head? = some '/' then
        let body := rest.tail.takeWhile (fun ch => ch ≠ '\n')
        (pos, 2 + body.length)
          :: lineMatchesGo fuel (rest.tail.drop body.length)
            (pos + 2 + body.length)
      else lineMatchesGo fuel rest (pos + 1)

/-- Block comment matches of a source string. -/
def blockCommentMatches (source : String) : List (Nat × Nat) :=
  blockMatchesGo source.data.length source.data 0

/-- Line comment matches of a source string. -/
def lineCommentMatches (source : String) : List (Nat × Nat) :=
  lineMatchesGo source.data.length source.data 0

/-- The matched text of a (start, length) match. -/
def matchText (source : String) (m : Nat × Nat) : String :=
  ⟨(source.data.drop m.1).take m.2⟩

/-- Number of newlines before the match start
(`source[: match.start()].count("\n")`). -/
def newlinesBefore (source : String) (start : Nat) : Int :=
  (((source.data.take start).filter (fun c => c = '\n')).length : Int)

/-- `_clean_st_comment`: strip the `(* *)` or `//` markers. -/
def cleanStComment (text : String) : String :=
  let cleaned := pyStrip text
  if cleaned.startsWith "(*" && cleaned.endsWith "*)" then
    pyStrip ⟨(cleaned.data.drop 2).take (cleaned.length - 4)⟩
  else if cleaned.startsWith "//" then
    pyStrip ⟨cleaned.data.drop 2⟩
  else cleaned

/-- `_create_comment_chunk`. -/
def createCommentChunk (content : String) (line : Int) (fileId : Option Nat)
    (filePath : Option String) (pouName pouType commentType : String)
    (methodName actionName : Option String) : Chunk :=
  let elementName := "comment_line_" ++ toString line
  let fqn := buildFqn pouName elementName methodName actionName
  let endLine := line + countNl content
  let cleanedText := cleanStComment content
  let metadata : Metadata :=
    [("kind", .str "comment"),
     ("comment_type", .str commentType),
     ("pou_name", .str pouName),
     ("pou_type", .str pouType),
     ("cleaned_text", .str cleanedText)]
    ++ optEntry "method_name" methodName
    ++ optEntry "action_name" actionName
  { symbol := fqn
    start_line := line
    end_line := endLine
    code := content
    chunk_type := ChunkType.COMMENT
    file_id := fileId.getD 0
    file_path := filePath
    metadata := metadata }

/-- One comment-match loop of `_extract_comment_chunks`. -/
def commentChunksOfMatches (ms : List (Nat × Nat)) (source : String)
    (fileId : Option Nat) (filePath : Option String)
    (pouName pouType : String) (baseLine : Int) (commentType : String)
    (methodName actionName : Option String) : List Chunk :=
  match ms with
  | [] => []
  | m :: rest =>
      createCommentChunk (matchText source m) (newlinesBefore source m.1 + baseLine)
        fileId filePath pouName pouType commentType methodName actionName
      :: commentChunksOfMatches rest source fileId filePath pouName pouType
        baseLine commentType methodName actionName

/-- `_extract_comment_chunks`: block-comment chunks first, then line-comment
chunks, each at `base_line` plus the newline count before the match. -/
def extractCommentChunks (source : String) (fileId : Option Nat)
    (filePath : Option String) (pouName pouType : String) (baseLine : Int)
    (methodName actionName : Option String) : List Chunk :=
  commentChunksOfMatches (blockCommentMatches source) source fileId filePath
    pouName pouType baseLine "block" methodName actionName
  ++ commentChunksOfMatches (lineCommentMatches source) source fileId filePath
    pouName pouType baseLine "line" methodName actionName

/-- `_create_pou_chunk`: the main POU chunk (declaration plus implementation,
the latter appended after a blank line only when non-blank), or nothing when
the combined text is blank. -/
def createPouChunk (content : POUContent) (fileId : Option Nat)
    (filePath : Option String) : Option Chunk :=
  let combinedCode :=
    content.declaration
    ++ (if pyNonBlank content.implementation then "\n\n" ++ content.implementation
        else "")
  if (pyStrip combinedCode).isEmpty then none
  else
    let startLine : Int :=
      match content.declaration_location with
      | some loc => loc.line
      | none => 1
    let endLine := startLine + countNl combinedCode
    let pouType := pyUpper content.pou_type
    let chunkType :=
      if pouType = "PROGRAM" then ChunkType.PROGRAM
      else if pouType = "FUNCTION_BLOCK" then ChunkType.FUNCTION_BLOCK
      else if pouType = "FUNCTION" then ChunkType.FUNCTION
      else ChunkType.BLOCK
    some
      { symbol := content.name
        start_line := startLine
        end_line := endLine
        code := combinedCode
        chunk_type := chunkType
        file_id := fileId.getD 0
        file_path := filePath
        metadata :=
          [("kind", .str (pyLower pouType)),
           ("pou_type", .str pouType),
           ("pou_name", .str content.name),
           ("pou_id", .str content.id)] }

/-- The combined code of an action (declaration, then implementation after a
blank line, each kept only when truthy/non-blank). -/
def actionCombinedCode (action : ActionContent) : String :=
  let actionCode :=
    match action.declaration with
    | some d => if d ≠ "" then d else ""
    | none => ""
  if pyNonBlank action.implementation then
    (if actionCode ≠ "" then actionCode ++ "\n\n" else actionCode)
    ++ action.implementation
  else actionCode

/-- Start line of an action's combined chunk (declaration anchor, else
implementation anchor, else 1). -/
def actionStartLine (action : ActionContent) : Int :=
  match action.declaration_location with
  | some loc => loc.line
  | none =>
      match action.implementation_location with
      | some loc => loc.line
      | none => 1

/-- The main ACTION chunk of `_extract_action_chunks`. -/
def actionMainChunk (action : ActionContent) (content : POUContent)
    (fileId : Option Nat) (filePath : Option String) : Chunk :=
  { symbol := content.name ++ "." ++ action.name
    start_line := actionStartLine action
    end_line := actionStartLine action + countNl (actionCombinedCode action)
    code := actionCombinedCode action
    chunk_type := ChunkType.ACTION
    file_id := fileId.getD 0
    file_path := filePath
    metadata :=
      [("kind", .str "action"),
       ("pou_type", .str content.pou_type),
       ("pou_name", .str content.name),
       ("action_id", .str action.id)] }

/-- Whether an action's declaration is parsed at all
(`if action.declaration and action.declaration.strip()`). -/
def actionDeclAttempted (action : ActionContent) : Bool :=
  optTruthy action.declaration && pyNonBlank (action.declaration.getD "")

/-- The variable chunks (or the one error) of an action's declaration. -/
def actionVarRes (declOracle : ParseOracle) (action : ActionContent)
    (content : POUContent) (fileId : Option Nat) (filePath : Option String) :
    List Chunk × List String :=
  if actionDeclAttempted action then
    match declOracle (action.declaration.getD "") with
    | .ok declTree =>
        (extractVariableChunksFromTree declTree content fileId filePath
          action.declaration_location (some action.name) none, [])
    | .error e =>
        ([], ["Action '" ++ action.name ++ "' declaration parse error: " ++ e])
  else ([], [])

/-- The block chunks (and errors) of an action's implementation. -/
def actionBlockRes (implOracle : ParseOracle) (action : ActionContent)
    (content : POUContent) (fileId : Option Nat) (filePath : Option String) :
    List Chunk × List String :=
  if pyNonBlank action.implementation then
    extractBlocksFromImplementation implOracle action.implementation
      action.implementation_location content.name (pyUpper content.pou_type)
      fileId filePath (some action.name) none
  else ([], [])

/-- The comment chunks of an action's declaration. -/
def actionDeclComments (action : ActionContent) (content : POUContent)
    (fileId : Option Nat) (filePath : Option String) : List Chunk :=
  if actionDeclAttempted action then
    extractCommentChunks (action.declaration.getD "") fileId filePath
      content.name (pyUpper content.pou_type)
      (match action.declaration_location with
       | some loc => loc.line
       | none => 1) none (some action.name)
  else []

/-- The comment chunks of an action's implementation. -/
def actionImplComments (action : ActionContent) (content : POUContent)
    (fileId : Option Nat) (filePath : Option String) : List Chunk :=
  if pyNonBlank action.implementation then
    extractCommentChunks action.implementation fileId filePath content.name
      (pyUpper content.pou_type)
      (match action.implementation_location with
       | some loc => loc.line
       | none => 1) none (some action.name)
  else []

/-- `_extract_action_chunks`: the ACTION chunk, then the action's variable
chunks (skipped with one error on a declaration grammar failure), block
chunks, and comment chunks.  Returns the chunks and the errors appended. -/
def extractActionChunks (declOracle implOracle : ParseOracle)
    (action : ActionContent) (content : POUContent) (fileId : Option Nat)
    (filePath : Option String) : List Chunk × List String :=
  if (pyStrip (actionCombinedCode action)).isEmpty then ([], [])
  else
    (actionMainChunk action content fileId filePath ::
      (actionVarRes declOracle action content fileId filePath).1 ++
      (actionBlockRes implOracle action content fileId filePath).1 ++
      actionDeclComments action content fileId filePath ++
      actionImplComments action content fileId filePath,
     (actionVarRes declOracle action content fileId filePath).2 ++
      (actionBlockRes implOracle action content fileId filePath).2)

/-- The combined code of a method. -/
def methodCombinedCode (method : MethodContent) : String :=
  if pyNonBlank method.implementation then
    (if method.declaration ≠ "" then method.declaration ++ "\n\n"
     else method.declaration)
    ++ method.implementation
  else method.declaration

/-- `_extract_method_chunks`. -/
def extractMethodChunks (declOracle implOracle : ParseOracle)
    (method : MethodContent) (content : POUContent) (fileId : Option Nat)
    (filePath : Option String) : List Chunk × List String :=
  let methodCode := methodCombinedCode method
  if (pyStrip methodCode).isEmpty then ([], [])
  else
    let startLine : Int :=
      match method.declaration_location with
      | some loc => loc.line
      | none =>
          match method.implementation_location with
          | some loc => loc.line
          | none => 1
    let endLine := startLine + countNl methodCode
    let mainChunk : Chunk :=
      { symbol := content.name ++ "." ++ method.name
        start_line := startLine
        end_line := endLine
        code := methodCode
        chunk_type := ChunkType.METHOD
        file_id := fileId.getD 0
        file_path := filePath
        metadata :=
          [("kind", .str "method"),
           ("pou_type", .str content.pou_type),
           ("pou_name", .str content.name),
           ("method_id", .str method.id)] }
    let varRes : List Chunk × List String :=
      if pyNonBlank method.declaration then
        match declOracle method.declaration with
        | .ok declTree =>
            (extractVariableChunksFromTree declTree content fileId filePath
              method.declaration_location none (some method.name), [])
        | .error e =>
            ([], ["Method '" ++ method.name ++ "' declaration parse error: " ++ e])
      else ([], [])
    let blockRes : List Chunk × List String :=
      if pyNonBlank method.implementation then
        extractBlocksFromImplementation implOracle method.implementation
          method.implementation_location content.name (pyUpper content.pou_type)
          fileId filePath none (some method.name)
      else ([], [])
    let declCommentChunks :=
      if pyNonBlank method.declaration then
        let declBase : Int :=
          match method.declaration_location with
          | some loc => loc.line
          | none => 1
        extractCommentChunks method.declaration fileId filePath content.name
          (pyUpper content.pou_type) declBase (some method.name) none
      else []
    let implCommentChunks :=
      if pyNonBlank method.implementation then
        let implBase : Int :=
          match method.implementation_location with
          | some loc => loc.line
          | none => 1
        extractCommentChunks method.implementation fileId filePath content.name
          (pyUpper content.pou_type) implBase (some method.name) none
      else []
    (mainChunk :: varRes.1 ++ blockRes.1 ++ declCommentChunks ++ implCommentChunks,
     varRes.2 ++ blockRes.2)

/-- The combined code of a property: declaration, then `// GET` / `// SET`
accessor implementations when present and non-blank. -/
def propertyCombinedCode (prop : PropertyContent) : String :=
  let code := prop.declaration
  let code :=
    match prop.get with
    | some g =>
        if pyNonBlank g.implementation then
          (if code ≠ "" then code ++ "\n\n// GET\n" else code) ++ g.implementation
        else code
    | none => code
  match prop.set with
  | some s =>
      if pyNonBlank s.implementation then
        (if code ≠ "" then code ++ "\n\n// SET\n" else code) ++ s.implementation
      else code
  | none => code

/-- `_extract_property_chunks`: just the PROPERTY chunk (or nothing when the
combined text is blank); the grammar engine is never invoked. -/
def extractPropertyChunks (prop : PropertyContent) (content : POUContent)
    (fileId : Option Nat) (filePath : Option String) : List Chunk :=
  let propertyCode := propertyCombinedCode prop
  if (pyStrip propertyCode).isEmpty then []
  else
    let startLine : Int :=
      match prop.declaration_location with
      | some loc => loc.line
      | none => 1
    let endLine := startLine + countNl propertyCode
    [{ symbol := content.name ++ "." ++ prop.name
       start_line := startLine
       end_line := endLine
       code := propertyCode
       chunk_type := ChunkType.PROPERTY
       file_id := fileId.getD 0
       file_path := filePath
       metadata :=
         [("kind", .str "property"),
          ("pou_type", .str content.pou_type),
          ("pou_name", .str content.name),
          ("property_id", .str prop.id),
          ("has_get", .bool prop.get.isSome),
          ("has_set", .bool prop.set.isSome)] }]

/-- The action loop of `_process_pou_content`. -/
def processActions (declOracle implOracle : ParseOracle)
    (actions : List ActionContent) (content : POUContent) (fileId : Option Nat)
    (filePath : Option String) : List Chunk × List String :=
  match actions with
  | [] => ([], [])
  | a :: rest =>
      let r := extractActionChunks declOracle implOracle a content fileId filePath
      let rr := processActions declOracle implOracle rest content fileId filePath
      (r.1 ++ rr.1, r.2 ++ rr.2)

/-- The method loop of `_process_pou_content`. -/
def processMethods (declOracle implOracle : ParseOracle)
    (methods : List MethodContent) (content : POUContent) (fileId : Option Nat)
    (filePath : Option String) : List Chunk × List String :=
  match methods with
  | [] => ([], [])
  | m :: rest =>
      let r := extractMethodChunks declOracle implOracle m content fileId filePath
      let rr := processMethods declOracle implOracle rest content fileId filePath
      (r.1 ++ rr.1, r.2 ++ rr.2)

/-- The property loop of `_process_pou_content` (no errors possible). -/
def processProperties (properties : List PropertyContent) (content : POUContent)
    (fileId : Option Nat) (filePath : Option String) : List Chunk :=
  match properties with
  | [] => []
  | p :: rest =>
      extractPropertyChunks p content fileId filePath
      ++ processProperties rest content fileId filePath

/-- `_process_pou_content` (the persisted pipeline entered through
`parse_content` / `parse_file`): the chunks in emission order, paired with
the error list as it stands after the call (cleared at the start). -/
def processPOUContent (declOracle implOracle : ParseOracle)
    (content : POUContent) (fileId : Option Nat) (filePath : Option String) :
    List Chunk × List String :=
  let pouChunks := (createPouChunk content fileId filePath).toList
  let varRes : List Chunk × List String :=
    if pyNonBlank content.declaration then
      match declOracle content.declaration with
      | .ok declTree =>
          (extractVariableChunksFromTree declTree content fileId filePath none
            none none, [])
      | .error e =>
          ([], ["Declaration parse error in " ++ content.name ++ ": " ++ e])
    else ([], [])
  let blockRes : List Chunk × List String :=
    if pyNonBlank content.implementation then
      extractBlocksFromImplementation implOracle content.implementation
        content.implementation_location content.name (pyUpper content.pou_type)
        fileId filePath none none
    else ([], [])
  let declBaseLine : Int :=
    match content.declaration_location with
    | some loc => loc.line
    | none => 1
  let implBaseLine : Int :=
    match content.implementation_location with
    | some loc => loc.line
    | none => declBaseLine
  let declCommentChunks :=
    if pyNonBlank content.declaration then
      extractCommentChunks content.declaration fileId filePath content.name
        (pyUpper content.pou_type) declBaseLine none none
    else []
  let implCommentChunks :=
    if pyNonBlank content.implementation then
      extractCommentChunks content.implementation fileId filePath content.name
        (pyUpper content.pou_type) implBaseLine none none
    else []
  let actionRes :=
    processActions declOracle implOracle content.actions content fileId filePath
  let methodRes :=
    processMethods declOracle implOracle content.methods content fileId filePath
  let propertyChunks := processProperties content.properties content fileId filePath
  (pouChunks ++ varRes.1 ++ blockRes.1 ++ declCommentChunks ++ implCommentChunks
    ++ actionRes.1 ++ methodRes.1 ++ propertyChunks,
   varRes.2 ++ blockRes.2 ++ actionRes.2 ++ methodRes.2)

/-- `_map_chunk_type_to_concept`. -/
def mapChunkTypeToConcept (ct : ChunkType) : UniversalConcept :=
  if ct = .PROGRAM ∨ ct = .FUNCTION_BLOCK ∨ ct = .FUNCTION ∨ ct = .METHOD
      ∨ ct = .ACTION ∨ ct = .PROPERTY ∨ ct = .VARIABLE ∨ ct = .FIELD then
    .DEFINITION
  else if ct = .BLOCK then .BLOCK
  else if ct = .COMMENT then .COMMENT
  else .DEFINITION

/-- `_create_universal_chunk`: wraps the extraction data, enriching the
metadata with a `chunk_type_hint` entry holding the lower-cased `ChunkType`
member name. -/
def createUniversalChunk (chunkType : ChunkType) (name content : String)
    (startLine endLine : Int) (metadata : Metadata)
    (languageNodeType : String) : UniversalChunk :=
  { concept := mapChunkTypeToConcept chunkType
    name := name
    content := content
    start_line := startLine
    end_line := endLine
    metadata := dictSet metadata "chunk_type_hint" (.str (pyLower chunkType.pyName))
    language_node_type := languageNodeType }

/-- `_create_pou_universal_chunk`. -/
def createPouUniversalChunk (content : POUContent) : Option UniversalChunk :=
  let combinedCode :=
    content.declaration
    ++ (if pyNonBlank content.implementation then "\n\n" ++ content.implementation
        else "")
  if (pyStrip combinedCode).isEmpty then none
  else
    let startLine : Int :=
      match content.declaration_location with
      | some loc => loc.line
      | none => 1
    let endLine := startLine + countNl combinedCode
    let pouType := pyUpper content.pou_type
    let chunkType :=
      if pouType = "PROGRAM" then ChunkType.PROGRAM
      else if pouType = "FUNCTION_BLOCK" then ChunkType.FUNCTION_BLOCK
      else if pouType = "FUNCTION" then ChunkType.FUNCTION
      else ChunkType.BLOCK
    some (createUniversalChunk chunkType content.name combinedCode startLine endLine
      [("kind", .str (pyLower pouType)),
       ("pou_type", .str pouType),
       ("pou_name", .str content.name),
       ("pou_id", .str content.id)]
      "lark_pou")

/-- `_extract_var_decl_universal_chunk`: one UniversalChunk per identifier. -/
def extractVarDeclUniversalChunk (varDecl : LNode) (content : POUContent)
    (varClass : String) (retain persistent constant : Bool)
    (declarationLocation : Option SourceLocation)
    (actionName methodName : Option String) : List UniversalChunk :=
  let line := nodeLine varDecl
  let location := pyOr declarationLocation content.declaration_location
  let adjustedLine := adjustLineNumber line location
  let fold := varDeclFold varDecl.childrenOf [] none none
  let code := varDeclCode fold.1 fold.2.1 fold.2.2
  let isGlobal := varClass = "global" ∨ varClass = "external"
  let chunkType := if isGlobal then ChunkType.VARIABLE else ChunkType.FIELD
  let kind := if isGlobal then "variable" else "field"
  let metadata : Metadata :=
    [("kind", .str kind),
     ("pou_type", .str content.pou_type),
     ("pou_name", .str content.name),
     ("var_class", .str varClass),
     ("data_type", .ofOptStr fold.2.1),
     ("hw_address", .ofOptStr fold.2.2),
     ("retain", .bool retain),
     ("persistent", .bool persistent),
     ("constant", .bool constant)]
    ++ optEntry "action_name" actionName
    ++ optEntry "method_name" methodName
  fold.1.map (fun nm =>
    createUniversalChunk chunkType (buildFqn content.name nm methodName actionName)
      code adjustedLine adjustedLine metadata "lark_var_declaration")

/-- The per-var-block child loop of `_extract_var_universal_chunks_from_tree`. -/
def varBlockFoldU (cs : List LNode) (content : POUContent)
    (location : Option SourceLocation) (actionName methodName : Option String)
    (varClass : String) (retain persistent constant : Bool) :
    List UniversalChunk :=
  match cs with
  | [] => []
  | (c@(.tree d _ cc)) :: rest =>
      if d = "var_block_start" then
        let varClass2 :=
          match firstToken cc with
          | some (ty, v) => (varBlockMap ty).getD (pyLower v)
          | none => varClass
        varBlockFoldU rest content location actionName methodName
          varClass2 retain persistent constant
      else if d = "var_qualifier" then
        let q := qualFold cc retain persistent constant
        varBlockFoldU rest content location actionName methodName
          varClass q.1 q.2.1 q.2.2
      else if d = "var_declaration" then
        extractVarDeclUniversalChunk c content varClass retain persistent constant
          location actionName methodName
        ++ varBlockFoldU rest content location actionName methodName
          varClass retain persistent constant
      else
        varBlockFoldU rest content location actionName methodName
          varClass retain persistent constant
  | .token _ _ :: rest =>
      varBlockFoldU rest content location actionName methodName
        varClass retain persistent constant

/-- The var-block loop of `_extract_var_universal_chunks_from_tree`. -/
def varBlocksChunksU (blocks : List LNode) (content : POUContent)
    (location : Option SourceLocation) (actionName methodName : Option String) :
    List UniversalChunk :=
  match blocks with
  | [] => []
  | b :: rest =>
      varBlockFoldU b.childrenOf content location actionName methodName
        "local" false false false
      ++ varBlocksChunksU rest content location actionName methodName

/-- `_extract_var_universal_chunks_from_tree`. -/
def extractVarUniversalChunksFromTree (tree : LNode) (content : POUContent)
    (declarationLocation : Option SourceLocation)
    (actionName methodName : Option String) : List UniversalChunk :=
  let location := pyOr declarationLocation content.declaration_location
  varBlocksChunksU (findNodes tree "var_block") content location actionName
    methodName

/-- `_create_block_universal_chunk`. -/
def createBlockUniversalChunk (node : LNode) (implementation : String)
    (implementationLocation : Option SourceLocation)
    (pouName pouType : String) (actionName methodName : Option String) :
    Option UniversalChunk :=
  match node.metaOf with
  | none => none
  | some m =>
      let startLine := m.line
      let endLine := effectiveEndLine m
      let code := reconstructCodeFromLines implementation startLine endLine
      let adjustedStart := adjustLineNumber startLine implementationLocation
      let adjustedEnd := adjustLineNumber endLine implementationLocation
      let kind := (statementKindMap node.dataOf).getD "block"
      let symbol :=
        buildFqn pouName (kind ++ "_" ++ toString adjustedStart) methodName actionName
      let metadata : Metadata :=
        [("kind", .str kind), ("pou_type", .str pouType), ("pou_name", .str pouName)]
        ++ optEntry "action_name" actionName
        ++ optEntry "method_name" methodName
      some (createUniversalChunk ChunkType.BLOCK symbol code adjustedStart
        adjustedEnd metadata ("lark_" ++ node.dataOf))

/-- The statement-node loop of
`_extract_block_universal_chunks_from_implementation`. -/
def blockUniversalChunksOfNodes (nodes : List LNode) (implementation : String)
    (implementationLocation : Option SourceLocation) (pouName pouType : String)
    (actionName methodName : Option String) : List UniversalChunk :=
  match nodes with
  | [] => []
  | n :: rest =>
      (createBlockUniversalChunk n implementation implementationLocation pouName
        pouType actionName methodName).toList
      ++ blockUniversalChunksOfNodes rest implementation implementationLocation
        pouName pouType actionName methodName

/-- `_extract_block_universal_chunks_from_implementation`. -/
def extractBlockUniversalChunksFromImplementation (implOracle : ParseOracle)
    (implementation : String) (implementationLocation : Option SourceLocation)
    (pouName pouType : String) (actionName methodName : Option String) :
    List UniversalChunk × List String :=
  match implOracle implementation with
  | .error e =>
      ([], ["Implementation parse error in "
            ++ implErrorContext pouName actionName methodName ++ ": " ++ e])
  | .ok tree =>
      (blockUniversalChunksOfNodes (findStatementNodes tree) implementation
        implementationLocation pouName pouType actionName methodName, [])

/-- `_create_comment_universal_chunk`. -/
def createCommentUniversalChunk (content : String) (line : Int)
    (pouName pouType commentType : String)
    (methodName actionName : Option String) : UniversalChunk :=
  let elementName := "comment_line_" ++ toString line
  let fqn := buildFqn pouName elementName methodName actionName
  let endLine := line + countNl content
  let cleanedText := cleanStComment content
  let metadata : Metadata :=
    [("kind", .str "comment"),
     ("comment_type", .str commentType),
     ("pou_name", .str pouName),
     ("pou_type", .str pouType),
     ("cleaned_text", .str cleanedText)]
    ++ optEntry "method_name" methodName
    ++ optEntry "action_name" actionName
  createUniversalChunk ChunkType.COMMENT fqn content line endLine metadata
    "lark_comment"

/-- One comment-match loop of `_extract_comment_universal_chunks`. -/
def commentUniversalChunksOfMatches (ms : List (Nat × Nat)) (source : String)
    (pouName pouType : String) (baseLine : Int) (commentType : String)
    (methodName actionName : Option String) : List UniversalChunk :=
  match ms with
  | [] => []
  | m :: rest =>
      createCommentUniversalChunk (matchText source m)
        (newlinesBefore source m.1 + baseLine) pouName pouType commentType
        methodName actionName
      :: commentUniversalChunksOfMatches rest source pouName pouType baseLine
        commentType methodName actionName

/-- `_extract_comment_universal_chunks`. -/
def extractCommentUniversalChunks (source : String) (pouName pouType : String)
    (baseLine : Int) (methodName actionName : Option String) :
    List UniversalChunk :=
  commentUniversalChunksOfMatches (blockCommentMatches source) source pouName
    pouType baseLine "block" methodName actionName
  ++ commentUniversalChunksOfMatches (lineCommentMatches source) source pouName
    pouType baseLine "line" methodName actionName

/-- The main ACTION chunk of `_extract_action_universal_chunks`. -/
def actionMainUniversalChunk (action : ActionContent) (content : POUContent) :
    UniversalChunk :=
  createUniversalChunk ChunkType.ACTION (content.name ++ "." ++ action.name)
    (actionCombinedCode action) (actionStartLine action)
    (actionStartLine action + countNl (actionCombinedCode action))
    [("kind", .str "action"),
     ("pou_type", .str content.pou_type),
     ("pou_name", .str content.name),
     ("action_id", .str action.id)]
    "lark_action"

/-- The variable chunks (or the one error) of an action's declaration,
pipeline form. -/
def actionVarResU (declOracle : ParseOracle) (action : ActionContent)
    (content : POUContent) : List UniversalChunk × List String :=
  if actionDeclAttempted action then
    match declOracle (action.declaration.getD "") with
    | .ok declTree =>
        (extractVarUniversalChunksFromTree declTree content
          action.declaration_location (some action.name) none, [])
    | .error e =>
        ([], ["Action '" ++ action.name ++ "' declaration parse error: " ++ e])
  else ([], [])

/-- The block chunks (and errors) of an action's implementation, pipeline
form. -/
def actionBlockResU (implOracle : ParseOracle) (action : ActionContent)
    (content : POUContent) : List UniversalChunk × List String :=
  if pyNonBlank action.implementation then
    extractBlockUniversalChunksFromImplementation implOracle
      action.implementation action.implementation_location content.name
      (pyUpper content.pou_type) (some action.name) none
  else ([], [])

/-- The comment chunks of an action's declaration, pipeline form. -/
def actionDeclCommentsU (action : ActionContent) (content : POUContent) :
    List UniversalChunk :=
  if actionDeclAttempted action then
    extractCommentUniversalChunks (action.declaration.getD "") content.name
      (pyUpper content.pou_type)
      (match action.declaration_location with
       | some loc => loc.line
       | none => 1) none (some action.name)
  else []

/-- The comment chunks of an action's implementation, pipeline form. -/
def actionImplCommentsU (action : ActionContent) (content : POUContent) :
    List UniversalChunk :=
  if pyNonBlank action.implementation then
    extractCommentUniversalChunks action.implementation content.name
      (pyUpper content.pou_type)
      (match action.implementation_location with
       | some loc => loc.line
       | none => 1) none (some action.name)
  else []

/-- `_extract_action_universal_chunks`. -/
def extractActionUniversalChunks (declOracle implOracle : ParseOracle)
    (action : ActionContent) (content : POUContent) :
    List UniversalChunk × List String :=
  if (pyStrip (actionCombinedCode action)).isEmpty then ([], [])
  else
    (actionMainUniversalChunk action content ::
      (actionVarResU declOracle action content).1 ++
      (actionBlockResU implOracle action content).1 ++
      actionDeclCommentsU action content ++
      actionImplCommentsU action content,
     (actionVarResU declOracle action content).2 ++
      (actionBlockResU implOracle action content).2)

/-- `_extract_method_universal_chunks`. -/
def extractMethodUniversalChunks (declOracle implOracle : ParseOracle)
    (method : MethodContent) (content : POUContent) :
    List UniversalChunk × List String :=
  let methodCode := methodCombinedCode method
  if (pyStrip methodCode).isEmpty then ([], [])
  else
    let startLine : Int :=
      match method.declaration_location with
      | some loc => loc.line
      | none =>
          match method.implementation_location with
          | some loc => loc.line
          | none => 1
    let endLine := startLine + countNl methodCode
    let mainChunk :=
      createUniversalChunk ChunkType.METHOD (content.name ++ "." ++ method.name)
        methodCode startLine endLine
        [("kind", .str "method"),
         ("pou_type", .str content.pou_type),
         ("pou_name", .str content.name),
         ("method_id", .str method.id)]
        "lark_method"
    let varRes : List UniversalChunk × List String :=
      if pyNonBlank method.declaration then
        match declOracle method.declaration with
        | .ok declTree =>
            (extractVarUniversalChunksFromTree declTree content
              method.declaration_location none (some method.name), [])
        | .error e =>
            ([], ["Method '" ++ method.name ++ "' declaration parse error: " ++ e])
      else ([], [])
    let blockRes : List UniversalChunk × List String :=
      if pyNonBlank method.implementation then
        extractBlockUniversalChunksFromImplementation implOracle
          method.implementation method.implementation_location content.name
          (pyUpper content.pou_type) none (some method.name)
      else ([], [])
    let declCommentChunks :=
      if pyNonBlank method.declaration then
        let declBase : Int :=
          match method.declaration_location with
          | some loc => loc.line
          | none => 1
        extractCommentUniversalChunks method.declaration content.name
          (pyUpper content.pou_type) declBase (some method.name) none
      else []
    let implCommentChunks :=
      if pyNonBlank method.implementation then
        let implBase : Int :=
          match method.implementation_location with
          | some loc => loc.line
          | none => 1
        extractCommentUniversalChunks method.implementation content.name
          (pyUpper content.pou_type) implBase (some method.name) none
      else []
    (mainChunk :: varRes.1 ++ blockRes.1 ++ declCommentChunks ++ implCommentChunks,
     varRes.2 ++ blockRes.2)

/-- `_extract_property_universal_chunks`. -/
def extractPropertyUniversalChunks (prop : PropertyContent)
    (content : POUContent) : List UniversalChunk :=
  let propertyCode := propertyCombinedCode prop
  if (pyStrip propertyCode).isEmpty then []
  else
    let startLine : Int :=
      match prop.declaration_location with
      | some loc => loc.line
      | none => 1
    let endLine := startLine + countNl propertyCode
    [createUniversalChunk ChunkType.PROPERTY (content.name ++ "." ++ prop.name)
      propertyCode startLine endLine
      [("kind", .str "property"),
       ("pou_type", .str content.pou_type),
       ("pou_name", .str content.name),
       ("property_id", .str prop.id),
       ("has_get", .bool prop.get.isSome),
       ("has_set", .bool prop.set.isSome)]
      "lark_property"]

/-- The action loop of `_process_pou_content_to_universal`. -/
def processActionsU (declOracle implOracle : ParseOracle)
    (actions : List ActionContent) (content : POUContent) :
    List UniversalChunk × List String :=
  match actions with
  | [] => ([], [])
  | a :: rest =>
      let r := extractActionUniversalChunks declOracle implOracle a content
      let rr := processActionsU declOracle implOracle rest content
      (r.1 ++ rr.1, r.2 ++ rr.2)

/-- The method loop of `_process_pou_content_to_universal`. -/
def processMethodsU (declOracle implOracle : ParseOracle)
    (methods : List MethodContent) (content : POUContent) :
    List UniversalChunk × List String :=
  match methods with
  | [] => ([], [])
  | m :: rest =>
      let r := extractMethodUniversalChunks declOracle implOracle m content
      let rr := processMethodsU declOracle implOracle rest content
      (r.1 ++ rr.1, r.2 ++ rr.2)

/-- The property loop of `_process_pou_content_to_universal`. -/
def processPropertiesU (properties : List PropertyContent)
    (content : POUContent) : List UniversalChunk :=
  match properties with
  | [] => []
  | p :: rest =>
      extractPropertyUniversalChunks p content
      ++ processPropertiesU rest content

/-- `_process_pou_content_to_universal` (the pipeline form entered through
`extract_universal_chunks`). -/
def processPOUContentToUniversal (declOracle implOracle : ParseOracle)
    (content : POUContent) : List UniversalChunk × List String :=
  let pouChunks := (createPouUniversalChunk content).toList
  let varRes : List UniversalChunk × List String :=
    if pyNonBlank content.declaration then
      match declOracle content.declaration with
      | .ok declTree =>
          (extractVarUniversalChunksFromTree declTree content none none none, [])
      | .error e =>
          ([], ["Declaration parse error in " ++ content.name ++ ": " ++ e])
    else ([], [])
  let blockRes : List UniversalChunk × List String :=
    if pyNonBlank content.implementation then
      extractBlockUniversalChunksFromImplementation implOracle
        content.implementation content.implementation_location content.name
        (pyUpper content.pou_type) none none
    else ([], [])
  let declBaseLine : Int :=
    match content.declaration_location with
    | some loc => loc.line
    | none => 1
  let implBaseLine : Int :=
    match content.implementation_location with
    | some loc => loc.line
    | none => declBaseLine
  let declCommentChunks :=
    if pyNonBlank content.declaration then
      extractCommentUniversalChunks content.declaration content.name
        (pyUpper content.pou_type) declBaseLine none none
    else []
  let implCommentChunks :=
    if pyNonBlank content.implementation then
      extractCommentUniversalChunks content.implementation content.name
        (pyUpper content.pou_type) implBaseLine none none
    else []
  let actionRes :=
    processActionsU declOracle implOracle content.actions content
  let methodRes :=
    processMethodsU declOracle implOracle content.methods content
  let propertyChunks := processPropertiesU content.properties content
  (pouChunks ++ varRes.1 ++ blockRes.1 ++ declCommentChunks ++ implCommentChunks
    ++ actionRes.1 ++ methodRes.1 ++ propertyChunks,
   varRes.2 ++ blockRes.2 ++ actionRes.2 ++ methodRes.2)

/-- Python regex `\s` on the character range involved (ASCII whitespace plus
the extra line/paragraph separators). -/
def isPyRegexSpace (c : Char) : Bool :=
  isPySpace c || c = '\x1c' || c = '\x1d' || c = '\x1e' || c = '\x1f' || c = '\x85'

/-- First index of `ch` in `cs`. -/
def findCharIdx (cs : List Char) (ch : Char) : Option Nat :=
  match cs with
  | [] => none
  | c :: rest =>
      if c = ch then some 0 else (findCharIdx rest ch).map (fun i => i + 1)

/-- Try the element-tag regex `<Name(?:\s[^>]*)?>|<Name>` at the head of
`cs`; returns the match length.  The optional attribute group requires one
whitespace character and then runs to the next `>`. -/
def tagMatchLen (nm : List Char) (cs : List Char) : Option Nat :=
  if cs.take (nm.length + 1) = '<' :: nm then
    match cs.drop (nm.length + 1) with
    | [] => none
    | c :: rest =>
        if c = '>' then some (nm.length + 2)
        else if isPyRegexSpace c then
          match findCharIdx rest '>' with
          | some g => some (nm.length + 3 + g)
          | none => none
        else none
  else none

/-- `re.search` of the element-tag regex: end offset of the leftmost match. -/
def tagSearch (nm : List Char) (cs : List Char) : Option Nat :=
  match tagMatchLen nm cs with
  | some l => some l
  | none =>
      match cs with
      | [] => none
      | _ :: rest => (tagSearch nm rest).map (fun e => e + 1)

/-- First index at which `pat` occurs in `cs` (Python `str.find`). -/
def findSub (cs pat : List Char) : Option Nat :=
  if cs.take pat.length = pat then some 0
  else
    match cs with
    | [] => none
    | _ :: rest => (findSub rest pat).map (fun i => i + 1)

/-- The CDATA open marker. -/
def cdataMarker : List Char := "<![CDATA[".data

/-- The element-path walk of `_find_cdata_content_start`: advance the search
position past each element's opening tag in turn; nothing when a step fails. -/
def walkElementPath (cs : List Char) (pos : Nat) :
    List String → Option Nat
  | [] => some pos
  | nm :: rest =>
      match tagSearch nm.data (cs.drop pos) with
      | some matchEnd => walkElementPath cs (pos + matchEnd) rest
      | none => none

/-- Index of the last `\n` in `cs` (`str.rfind("\n")`). -/
def rfindNl (cs : List Char) : Option Nat :=
  match cs with
  | [] => none
  | c :: rest =>
      match rfindNl rest with
      | some i => some (i + 1)
      | none => if c = '\n' then some 0 else none

/-- `_find_cdata_content_start`: walk the element path, find the next CDATA
marker, and return the line/column/offset of the first content character. -/
def findCdataContentStart (xmlText : String) (searchStart : Nat)
    (elementPath : List String) : Option SourceLocation :=
  let cs := xmlText.data
  match walkElementPath cs searchStart elementPath with
  | none => none
  | some pos =>
      match findSub (cs.drop pos) cdataMarker with
      | none => none
      | some rel =>
          let contentStart := pos + rel + cdataMarker.length
          let textBefore := cs.take contentStart
          let line : Int := ((textBefore.filter (fun c => c = '\n')).length : Int) + 1
          let column : Int :=
            match rfindNl textBefore with
            | none => (contentStart : Int) + 1
            | some lastNl => (contentStart : Int) - (lastNl : Int)
          some { line := line, column := column, pos := (contentStart : Int) }


/-! ## Shared fixtures for concrete witnesses -/

/-- A `type_spec` node resolving to BOOL. -/
def wTypeSpecBool : LNode :=
  .tree "type_spec" none [.tree "primitive_type" none [.token "BOOL_TYPE" "BOOL"]]

/-- A single-identifier `var_declaration` node at grammar-relative line 2. -/
def wVarDeclG : LNode :=
  .tree "var_declaration" (some ⟨2, none⟩) [.token "IDENTIFIER" "gValue", wTypeSpecBool]

/-- A small `POUContent` fixture. -/
def wPou : POUContent :=
  { name := "MAIN", id := "1", pou_type := "PROGRAM",
    declaration := "PROGRAM MAIN", implementation := "",
    actions := [], methods := [], properties := [] }

/-- The chunk `wVarDeclG` yields in a `global` block. -/
def wChunkGlobal : Chunk :=
  { symbol := "MAIN.gValue", start_line := 2, end_line := 2,
    code := "gValue : BOOL;", chunk_type := ChunkType.VARIABLE,
    file_id := 0, file_path := none,
    metadata := [("kind", .str "variable"), ("pou_type", .str "PROGRAM"),
                 ("pou_name", .str "MAIN"), ("var_class", .str "global"),
                 ("data_type", .str "BOOL"), ("hw_address", .nil),
                 ("retain", .bool false), ("persistent", .bool false),
                 ("constant", .bool false)] }

/-! ## C4: scope classification -/

/-- C4.  Every variable record emitted from a declaration section is a
VARIABLE chunk exactly when its resolved scope class is `global` or
`external`, and a FIELD chunk for every other class (including lowercased
fallback classes); and among the 8 recognized scope keywords of
`VAR_BLOCK_MAP`, the classes mapping to VARIABLE are exactly those of
`VAR_GLOBAL` and `VAR_EXTERNAL`. -/
theorem c4_scope_classification :
    (∀ (varDecl : LNode) (content : POUContent) (fileId : Option Nat)
        (filePath : Option String) (varClass : String)
        (retain persistent constant : Bool) (declLoc : Option SourceLocation)
        (actionName methodName : Option String) (c : Chunk),
      c ∈ extractVarDeclarationChunk varDecl content fileId filePath varClass
        retain persistent constant declLoc actionName methodName →
      c.chunk_type =
        if varClass = "global" ∨ varClass = "external" then ChunkType.VARIABLE
        else ChunkType.FIELD) ∧
    (∀ ty cls, varBlockMap ty = some cls →
      ((cls = "global" ∨ cls = "external") ↔
        (ty = "VAR_GLOBAL" ∨ ty = "VAR_EXTERNAL"))) := by
  constructor
  · intro varDecl content fileId filePath varClass retain persistent constant
      declLoc actionName methodName c hc
    simp only [extractVarDeclarationChunk, List.mem_map] at hc
    obtain ⟨nm, _, rfl⟩ := hc
    by_cases h : varClass = "global" ∨ varClass = "external" <;> simp [h]
  · intro ty cls h
    unfold varBlockMap at h
    split_ifs at h with h1 h2 h3 h4 h5 h6 h7 h8
    all_goals
      (have hc := Option.some.inj h
       subst hc
       subst_vars
       decide)

/-- Witness for C4: a concrete `global`-class record is a VARIABLE chunk. -/
theorem c4_scope_classification_witness :
    wChunkGlobal ∈ extractVarDeclarationChunk wVarDeclG wPou none none "global"
      false false false none none none ∧
    wChunkGlobal.chunk_type = ChunkType.VARIABLE :=
  ⟨by decide,
   (c4_scope_classification.1 wVarDeclG wPou none none "global" false false false
      none none none wChunkGlobal (by decide)).trans (by decide)⟩

/-- The chunk `wVarDeclG` yields in a `local` block anchored at file line 10. -/
def wChunkAdjusted : Chunk :=
  { symbol := "MAIN.gValue", start_line := 11, end_line := 11,
    code := "gValue : BOOL;", chunk_type := ChunkType.FIELD,
    file_id := 0, file_path := none,
    metadata := [("kind", .str "field"), ("pou_type", .str "PROGRAM"),
                 ("pou_name", .str "MAIN"), ("var_class", .str "local"),
                 ("data_type", .str "BOOL"), ("hw_address", .nil),
                 ("retain", .bool false), ("persistent", .bool false),
                 ("constant", .bool false)] }

/-! ## C7: line adjustment applied exactly once -/

/-- C7.  `_adjust_line_number` returns `relative_line + (anchor.line - 1)`
when the anchor is present and the line unchanged when absent; and it is
applied exactly once to each emitted record's line values: a variable chunk's
start and end lines are the declaration node's grammar-relative line plus the
single offset, and a block chunk's lines are the statement node's
grammar-relative lines plus the single offset. -/
theorem c7_adjust_once :
    (∀ line : Int, adjustLineNumber line none = line) ∧
    (∀ (line : Int) (loc : SourceLocation),
      adjustLineNumber line (some loc) = line + (loc.line - 1)) ∧
    (∀ (varDecl : LNode) (content : POUContent) (fileId : Option Nat)
        (filePath : Option String) (varClass : String)
        (retain persistent constant : Bool) (loc : SourceLocation)
        (actionName methodName : Option String) (c : Chunk),
      c ∈ extractVarDeclarationChunk varDecl content fileId filePath varClass
        retain persistent constant (some loc) actionName methodName →
      c.start_line = nodeLine varDecl + (loc.line - 1) ∧
      c.end_line = nodeLine varDecl + (loc.line - 1)) ∧
    (∀ (node : LNode) (implementation : String) (loc : SourceLocation)
        (pouName pouType : String) (fileId : Option Nat)
        (filePath : Option String) (actionName methodName : Option String)
        (m : LMeta) (c : Chunk),
      node.metaOf = some m →
      createBlockChunk node implementation (some loc) pouName pouType fileId
        filePath actionName methodName = some c →
      c.start_line = m.line + (loc.line - 1) ∧
      c.end_line = effectiveEndLine m + (loc.line - 1)) := by
  refine ⟨fun _ => rfl, fun _ _ => rfl, ?_, ?_⟩
  · intro varDecl content fileId filePath varClass retain persistent constant
      loc actionName methodName c hc
    simp only [extractVarDeclarationChunk, List.mem_map, pyOr] at hc
    obtain ⟨nm, _, rfl⟩ := hc
    exact ⟨rfl, rfl⟩
  · intro node implementation loc pouName pouType fileId filePath actionName
      methodName m c hm hc
    simp only [createBlockChunk, hm] at hc
    obtain rfl := Option.some.inj hc
    exact ⟨rfl, rfl⟩

/-- Witness for C7: the concrete variable chunk of `wVarDeclG` under an
anchor at file line 10 sits at line `2 + (10 - 1) = 11`. -/
theorem c7_adjust_once_witness :
    wChunkAdjusted ∈ extractVarDeclarationChunk wVarDeclG wPou none none "local"
      false false false (some ⟨10, 1, 100⟩) none none ∧
    wChunkAdjusted.start_line = nodeLine wVarDeclG + ((10 : Int) - 1) :=
  ⟨by decide,
   (c7_adjust_once.2.2.1 wVarDeclG wPou none none "local" false false false
      ⟨10, 1, 100⟩ none none wChunkAdjusted (by decide)).1⟩

/-- A unit fixture with a non-blank implementation. -/
def wPouImpl : POUContent :=
  { name := "MAIN", id := "1", pou_type := "PROGRAM",
    declaration := "PROGRAM MAIN\nVAR\nEND_VAR\nEND_PROGRAM",
    implementation := "x := 1;",
    actions := [], methods := [], properties := [],
    declaration_location := some { line := 3, column := 1, pos := 50 } }

/-! ## C3: the unit DEFINITION chunk -/

/-- A unit whose implementation is non-empty but whitespace-only. -/
def c3Pou : POUContent :=
  { name := "P", id := "1", pou_type := "PROGRAM",
    declaration := "PROGRAM P\nEND_PROGRAM", implementation := " ",
    actions := [], methods := [], properties := [] }

/-- C3 counterexample: for a unit whose implementation is the non-empty
string `" "`, the emitted unit chunk's code is the declaration alone — the
blank line and implementation are *not* appended, although the
implementation is non-empty.  The append guard is blank-ness, not
emptiness. -/
theorem c3_pou_chunk_counterexample :
    c3Pou.implementation ≠ "" ∧
    (createPouChunk c3Pou none none).map Chunk.code =
      some "PROGRAM P\nEND_PROGRAM" ∧
    (createPouChunk c3Pou none none).map Chunk.code ≠
      some (c3Pou.declaration ++ "\n\n" ++ c3Pou.implementation) := by
  decide

/-- C3 as amended.  For every unit whose combined text is non-blank, the
assembler builds exactly one chunk for the unit itself: its code is the
declaration with a blank line and the implementation appended exactly when
the implementation is non-blank, its symbol is the unit name, its start line
is the declaration anchor line (1 when absent), its end line is the start
plus the newline count of the code, its kind maps to the DEFINITION concept
whenever the unit kind is recognized, and the pipeline-form chunk agrees on
every shared field. -/
theorem c3_pou_chunk (content : POUContent) (fileId : Option Nat)
    (filePath : Option String)
    (hne : pyStrip (content.declaration ++
      (if pyNonBlank content.implementation then "\n\n" ++ content.implementation
       else "")) ≠ "") :
    ∃ c, createPouChunk content fileId filePath = some c ∧
      c.symbol = content.name ∧
      c.code = content.declaration ++
        (if pyNonBlank content.implementation then "\n\n" ++ content.implementation
         else "") ∧
      c.start_line =
        (match content.declaration_location with
         | some loc => loc.line
         | none => 1) ∧
      c.end_line = c.start_line + countNl c.code ∧
      ((pyUpper content.pou_type = "PROGRAM" ∨
        pyUpper content.pou_type = "FUNCTION_BLOCK" ∨
        pyUpper content.pou_type = "FUNCTION") →
        mapChunkTypeToConcept c.chunk_type = UniversalConcept.DEFINITION) ∧
      ∃ u, createPouUniversalChunk content = some u ∧
        u.name = c.symbol ∧ u.content = c.code ∧
        u.start_line = c.start_line ∧ u.end_line = c.end_line ∧
        u.concept = mapChunkTypeToConcept c.chunk_type := by
  have hb : (pyStrip (content.declaration ++
      (if pyNonBlank content.implementation then "\n\n" ++ content.implementation
       else ""))).isEmpty = false := by
    cases hh : (pyStrip (content.declaration ++
        (if pyNonBlank content.implementation then "\n\n" ++ content.implementation
         else ""))).isEmpty
    · rfl
    · exact absurd ((String.isEmpty_iff _).mp hh) hne
  simp only [createPouChunk, createPouUniversalChunk, hb, Bool.false_eq_true,
    if_false]
  refine ⟨_, rfl, rfl, rfl, rfl, rfl, ?_, _, rfl, rfl, rfl, rfl, rfl, rfl⟩
  intro hk
  rcases hk with hk | hk | hk <;> (rw [hk]; rfl)

/-- Witness for C3: a concrete unit with a non-blank implementation. -/
theorem c3_pou_chunk_witness :
    pyStrip (wPouImpl.declaration ++
      (if pyNonBlank wPouImpl.implementation then "\n\n" ++ wPouImpl.implementation
       else "")) ≠ "" ∧
    ∃ c, createPouChunk wPouImpl none none = some c ∧
      c.symbol = wPouImpl.name ∧
      c.code = wPouImpl.declaration ++
        (if pyNonBlank wPouImpl.implementation then "\n\n" ++ wPouImpl.implementation
         else "") ∧
      c.start_line =
        (match wPouImpl.declaration_location with
         | some loc => loc.line
         | none => 1) ∧
      c.end_line = c.start_line + countNl c.code ∧
      ((pyUpper wPouImpl.pou_type = "PROGRAM" ∨
        pyUpper wPouImpl.pou_type = "FUNCTION_BLOCK" ∨
        pyUpper wPouImpl.pou_type = "FUNCTION") →
        mapChunkTypeToConcept c.chunk_type = UniversalConcept.DEFINITION) ∧
      ∃ u, createPouUniversalChunk wPouImpl = some u ∧
        u.name = c.symbol ∧ u.content = c.code ∧
        u.start_line = c.start_line ∧ u.end_line = c.end_line ∧
        u.concept = mapChunkTypeToConcept c.chunk_type :=
  ⟨by decide, c3_pou_chunk wPouImpl none none (by decide)⟩

/-- A property fixture with a declaration and a Get accessor. -/
def wProp : PropertyContent :=
  { name := "Value", id := "7",
    declaration := "PROPERTY Value : INT",
    get := some { name := "Get", id := "8", declaration := "",
                  implementation := "Value := _value;" },
    set := none }

/-! ## C9: properties emit only the PROPERTY chunk -/

/-- An accessor-less property with an empty declaration. -/
def c9Prop : PropertyContent :=
  { name := "Empty", id := "9", declaration := "", get := none, set := none }

/-- C9 counterexample: a property whose declaration is empty and that has no
accessors emits no chunk at all, not exactly one. -/
theorem c9_property_counterexample :
    extractPropertyChunks c9Prop wPou none none = [] ∧
    extractPropertyUniversalChunks c9Prop wPou = [] := by
  decide

/-- With no actions or methods and error-free unit sections, the persisted
parse ends with an empty error list (whatever the properties are). -/
theorem processPOUContent_errors_empty (declOracle implOracle : ParseOracle)
    (content : POUContent) (fileId : Option Nat) (filePath : Option String)
    (ha : content.actions = []) (hm : content.methods = [])
    (hd : pyNonBlank content.declaration →
      ∃ t, declOracle content.declaration = .ok t)
    (hi : pyNonBlank content.implementation →
      ∃ t, implOracle content.implementation = .ok t) :
    (processPOUContent declOracle implOracle content fileId filePath).2 = [] := by
  cases hdec : pyNonBlank content.declaration with
  | false =>
    cases himp : pyNonBlank content.implementation with
    | false =>
        simp [processPOUContent, ha, hm, hdec, himp, processActions,
          processMethods]
    | true =>
        obtain ⟨t2, ht2⟩ := hi himp
        simp [processPOUContent, ha, hm, hdec, himp, processActions,
          processMethods, extractBlocksFromImplementation, ht2]
  | true =>
    obtain ⟨t1, ht1⟩ := hd hdec
    cases himp : pyNonBlank content.implementation with
    | false =>
        simp [processPOUContent, ha, hm, hdec, himp, ht1, processActions,
          processMethods]
    | true =>
        obtain ⟨t2, ht2⟩ := hi himp
        simp [processPOUContent, ha, hm, hdec, himp, ht1, ht2, processActions,
          processMethods, extractBlocksFromImplementation]

/-- The same for the pipeline form. -/
theorem processPOUContentToUniversal_errors_empty
    (declOracle implOracle : ParseOracle) (content : POUContent)
    (ha : content.actions = []) (hm : content.methods = [])
    (hd : pyNonBlank content.declaration →
      ∃ t, declOracle content.declaration = .ok t)
    (hi : pyNonBlank content.implementation →
      ∃ t, implOracle content.implementation = .ok t) :
    (processPOUContentToUniversal declOracle implOracle content).2 = [] := by
  cases hdec : pyNonBlank content.declaration with
  | false =>
    cases himp : pyNonBlank content.implementation with
    | false =>
        simp [processPOUContentToUniversal, ha, hm, hdec, himp, processActionsU,
          processMethodsU]
    | true =>
        obtain ⟨t2, ht2⟩ := hi himp
        simp [processPOUContentToUniversal, ha, hm, hdec, himp, processActionsU,
          processMethodsU, extractBlockUniversalChunksFromImplementation, ht2]
  | true =>
    obtain ⟨t1, ht1⟩ := hd hdec
    cases himp : pyNonBlank content.implementation with
    | false =>
        simp [processPOUContentToUniversal, ha, hm, hdec, himp, ht1,
          processActionsU, processMethodsU]
    | true =>
        obtain ⟨t2, ht2⟩ := hi himp
        simp [processPOUContentToUniversal, ha, hm, hdec, himp, ht1, ht2,
          processActionsU, processMethodsU,
          extractBlockUniversalChunksFromImplementation]

/-- C9 as amended.  A property emits at most one chunk — exactly one
precisely when its combined text is non-blank — and that chunk is always a
PROPERTY chunk mapping to the DEFINITION concept; properties never run the
grammar engine and can never append an entry to the error list: whatever
the property list holds, a parse whose other sections are error-free ends
with an empty error list. -/
theorem c9_property_chunks :
    (∀ (prop : PropertyContent) (content : POUContent) (fileId : Option Nat)
        (filePath : Option String),
      (extractPropertyChunks prop content fileId filePath).length ≤ 1 ∧
      ((pyStrip (propertyCombinedCode prop)).isEmpty = false ↔
        (extractPropertyChunks prop content fileId filePath).length = 1) ∧
      (∀ c ∈ extractPropertyChunks prop content fileId filePath,
        c.chunk_type = ChunkType.PROPERTY ∧
        mapChunkTypeToConcept c.chunk_type = UniversalConcept.DEFINITION) ∧
      (∀ u ∈ extractPropertyUniversalChunks prop content,
        u.concept = UniversalConcept.DEFINITION)) ∧
    (∀ (declOracle implOracle : ParseOracle) (content : POUContent)
        (fileId : Option Nat) (filePath : Option String),
      content.actions = [] → content.methods = [] →
      (pyNonBlank content.declaration →
        ∃ t, declOracle content.declaration = .ok t) →
      (pyNonBlank content.implementation →
        ∃ t, implOracle content.implementation = .ok t) →
      (processPOUContent declOracle implOracle content fileId filePath).2 = [] ∧
      (processPOUContentToUniversal declOracle implOracle content).2 = []) := by
  constructor
  · intro prop content fileId filePath
    cases h : (pyStrip (propertyCombinedCode prop)).isEmpty
    · simp [extractPropertyChunks, extractPropertyUniversalChunks, h,
        mapChunkTypeToConcept, createUniversalChunk]
    · simp [extractPropertyChunks, extractPropertyUniversalChunks, h]
  · intro declOracle implOracle content fileId filePath ha hm hd hi
    exact ⟨processPOUContent_errors_empty declOracle implOracle content fileId
        filePath ha hm hd hi,
      processPOUContentToUniversal_errors_empty declOracle implOracle content
        ha hm hd hi⟩

/-- Witness for C9: a concrete non-blank property yields exactly one
PROPERTY chunk. -/
theorem c9_property_chunks_witness :
    ((extractPropertyChunks wProp wPou none none).length ≤ 1 ∧
      ((pyStrip (propertyCombinedCode wProp)).isEmpty = false ↔
        (extractPropertyChunks wProp wPou none none).length = 1) ∧
      (∀ c ∈ extractPropertyChunks wProp wPou none none,
        c.chunk_type = ChunkType.PROPERTY ∧
        mapChunkTypeToConcept c.chunk_type = UniversalConcept.DEFINITION) ∧
      (∀ u ∈ extractPropertyUniversalChunks wProp wPou,
        u.concept = UniversalConcept.DEFINITION)) ∧
    (pyStrip (propertyCombinedCode wProp)).isEmpty = false :=
  ⟨(c9_property_chunks.1 wProp wPou none none), by decide⟩

/-! ## C5: multi-identifier fan-out -/

/-- Left-cancellation of string concatenation. -/
theorem string_append_left_cancel {p a b : String} (h : p ++ a = p ++ b) :
    a = b := by
  have hd := congrArg String.data h
  simp only [String.data_append] at hd
  exact String.ext (List.append_cancel_left hd)

/-- For a fixed scope prefix, `_build_fqn` is injective in the element name. -/
theorem buildFqn_elem_inj (pouName : String) (methodName actionName : Option String)
    {a b : String} (h : buildFqn pouName a methodName actionName =
      buildFqn pouName b methodName actionName) : a = b := by
  unfold buildFqn at h
  split_ifs at h <;> exact string_append_left_cancel h

/-- A `var_declaration` node repeating the same identifier. -/
def c5DupDecl : LNode :=
  .tree "var_declaration" (some ⟨1, none⟩)
    [.token "IDENTIFIER" "a", .token "IDENTIFIER" "a", wTypeSpecBool]

/-- C5 counterexample: a declaration repeating one identifier yields two
records with the *same* fully-qualified symbol, so the symbols are not
distinct as claimed. -/
theorem c5_fan_out_counterexample :
    (extractVarDeclarationChunk c5DupDecl wPou none none "local" false false
      false none none none).length = 2 ∧
    ¬ ((extractVarDeclarationChunk c5DupDecl wPou none none "local" false false
      false none none none).map Chunk.symbol).Nodup := by
  decide

/-- C5 as amended.  A `var_declaration` node with N collected identifiers
yields exactly N records, one per identifier in order, all sharing the
block's class, qualifier flags, resolved data type and reconstructed code,
each symbol being the FQN of its identifier; the symbols are pairwise
distinct whenever the identifiers are. -/
theorem c5_fan_out (varDecl : LNode) (content : POUContent) (fileId : Option Nat)
    (filePath : Option String) (varClass : String)
    (retain persistent constant : Bool) (declLoc : Option SourceLocation)
    (actionName methodName : Option String) :
    (extractVarDeclarationChunk varDecl content fileId filePath varClass retain
      persistent constant declLoc actionName methodName).length =
      (varDeclFold varDecl.childrenOf [] none none).1.length ∧
    (extractVarDeclarationChunk varDecl content fileId filePath varClass retain
      persistent constant declLoc actionName methodName).map Chunk.symbol =
      (varDeclFold varDecl.childrenOf [] none none).1.map
        (fun nm => buildFqn content.name nm methodName actionName) ∧
    (∀ c ∈ extractVarDeclarationChunk varDecl content fileId filePath varClass
        retain persistent constant declLoc actionName methodName,
      c.code = varDeclCode (varDeclFold varDecl.childrenOf [] none none).1
        (varDeclFold varDecl.childrenOf [] none none).2.1
        (varDeclFold varDecl.childrenOf [] none none).2.2 ∧
      dictGet c.metadata "var_class" = some (.str varClass) ∧
      dictGet c.metadata "data_type" =
        some (.ofOptStr (varDeclFold varDecl.childrenOf [] none none).2.1) ∧
      dictGet c.metadata "retain" = some (.bool retain) ∧
      dictGet c.metadata "persistent" = some (.bool persistent) ∧
      dictGet c.metadata "constant" = some (.bool constant)) ∧
    ((varDeclFold varDecl.childrenOf [] none none).1.Nodup →
      ((extractVarDeclarationChunk varDecl content fileId filePath varClass
        retain persistent constant declLoc actionName methodName).map
        Chunk.symbol).Nodup) := by
  rcases hv : varDeclFold varDecl.childrenOf [] none none with ⟨names, dt, hw⟩
  simp only [extractVarDeclarationChunk, hv]
  refine ⟨by simp, by simp, ?_, ?_⟩
  · intro c hc
    simp only [List.mem_map] at hc
    obtain ⟨nm, _, rfl⟩ := hc
    refine ⟨rfl, ?_, ?_, ?_, ?_, ?_⟩ <;> simp [dictGet]
  · intro hnd
    simp only [List.map_map]
    exact hnd.map (fun a b h =>
      buildFqn_elem_inj content.name methodName actionName h)

/-- A three-identifier `var_declaration` node (`bFlag1, bFlag2, bFlag3 : BOOL;`). -/
def wVarDecl3 : LNode :=
  .tree "var_declaration" (some ⟨2, none⟩)
    [.token "IDENTIFIER" "bFlag1", .token "IDENTIFIER" "bFlag2",
     .token "IDENTIFIER" "bFlag3", wTypeSpecBool]

/-- Witness for C5: the three-flag declaration yields exactly 3 FIELD chunks
with data type BOOL, class `local`, and three distinct symbols. -/
theorem c5_fan_out_witness :
    ((extractVarDeclarationChunk wVarDecl3 wPou none none "local" false false
        false none none none).length =
      (varDeclFold wVarDecl3.childrenOf [] none none).1.length ∧
      (extractVarDeclarationChunk wVarDecl3 wPou none none "local" false false
        false none none none).map Chunk.symbol =
      (varDeclFold wVarDecl3.childrenOf [] none none).1.map
        (fun nm => buildFqn wPou.name nm none none) ∧
      (∀ c ∈ extractVarDeclarationChunk wVarDecl3 wPou none none "local" false
          false false none none none,
        c.code = varDeclCode (varDeclFold wVarDecl3.childrenOf [] none none).1
          (varDeclFold wVarDecl3.childrenOf [] none none).2.1
          (varDeclFold wVarDecl3.childrenOf [] none none).2.2 ∧
        dictGet c.metadata "var_class" = some (.str "local") ∧
        dictGet c.metadata "data_type" =
          some (.ofOptStr (varDeclFold wVarDecl3.childrenOf [] none none).2.1) ∧
        dictGet c.metadata "retain" = some (.bool false) ∧
        dictGet c.metadata "persistent" = some (.bool false) ∧
        dictGet c.metadata "constant" = some (.bool false)) ∧
      ((varDeclFold wVarDecl3.childrenOf [] none none).1.Nodup →
        ((extractVarDeclarationChunk wVarDecl3 wPou none none "local" false
          false false none none none).map Chunk.symbol).Nodup)) ∧
    (varDeclFold wVarDecl3.childrenOf [] none none).1.Nodup ∧
    (extractVarDeclarationChunk wVarDecl3 wPou none none "local" false false
      false none none none).length = 3 ∧
    (∀ c ∈ extractVarDeclarationChunk wVarDecl3 wPou none none "local" false
        false false none none none,
      c.chunk_type = ChunkType.FIELD ∧
      dictGet c.metadata "data_type" = some (.str "BOOL")) :=
  ⟨c5_fan_out wVarDecl3 wPou none none "local" false false false none none none,
   by decide, by decide, by decide⟩

/-! ## C6: nested block containment -/

/-- Membership in the child-list statement scan is membership in some
child's scan. -/
theorem mem_findStatementNodesList {x : LNode} {cs : List LNode} :
    x ∈ findStatementNodesList cs ↔ ∃ c ∈ cs, x ∈ findStatementNodes c := by
  induction cs with
  | nil => simp [findStatementNodesList]
  | cons c rest ih =>
      rw [findStatementNodesList, List.mem_append, ih]
      constructor
      · rintro (h | ⟨c2, hc2, hx⟩)
        · exact ⟨c, List.mem_cons_self c rest, h⟩
        · exact ⟨c2, List.mem_cons_of_mem c hc2, hx⟩
      · rintro ⟨c2, hc2, hx⟩
        rcases List.mem_cons.mp hc2 with rfl | hc2
        · exact Or.inl hx
        · exact Or.inr ⟨c2, hc2, hx⟩

/-- A statement node found inside a found statement node is itself found in
the whole tree's scan. -/
theorem findStatementNodes_trans (t a x : LNode)
    (ha : a ∈ findStatementNodes t)
    (hx : x ∈ findStatementNodesList a.childrenOf) :
    x ∈ findStatementNodes t := by
  match t with
  | .token ty v => simp [findStatementNodes] at ha
  | .tree d m cs =>
      rw [findStatementNodes] at ha ⊢
      rw [List.mem_append] at ha ⊢
      rcases ha with ha | ha
      · have hat : a = LNode.tree d m cs := by
          by_cases hk : (statementKindMap d).isSome <;> simp [hk] at ha
          exact ha
        subst hat
        exact Or.inr hx
      · obtain ⟨c, hcmem, hac⟩ := mem_findStatementNodesList.mp ha
        have hxc : x ∈ findStatementNodes c :=
          findStatementNodes_trans c a x hac hx
        exact Or.inr (mem_findStatementNodesList.mpr ⟨c, hcmem, hxc⟩)
termination_by sizeOf t
decreasing_by
  have := List.sizeOf_lt_of_mem hcmem
  simp only [LNode.tree.sizeOf_spec]
  omega

/-- A node of the scanned list whose chunk exists contributes it to the
block-chunk list. -/
theorem mem_blockChunksOfNodes {nodes : List LNode} {n : LNode} {c : Chunk}
    (implementation : String) (loc : Option SourceLocation)
    (pouName pouType : String) (fileId : Option Nat) (filePath : Option String)
    (actionName methodName : Option String)
    (hn : n ∈ nodes)
    (hc : createBlockChunk n implementation loc pouName pouType fileId filePath
      actionName methodName = some c) :
    c ∈ blockChunksOfNodes nodes implementation loc pouName pouType fileId
      filePath actionName methodName := by
  induction nodes with
  | nil => cases hn
  | cons n2 rest ih =>
      rw [blockChunksOfNodes, List.mem_append]
      rcases List.mem_cons.mp hn with rfl | hn2
      · exact Or.inl (by simp [hc])
      · exact Or.inr (ih hn2)

/-- `_adjust_line_number` is monotone in the grammar-relative line. -/
theorem adjustLineNumber_mono {l1 l2 : Int} (loc : Option SourceLocation)
    (h : l1 ≤ l2) : adjustLineNumber l1 loc ≤ adjustLineNumber l2 loc := by
  cases loc <;> simp [adjustLineNumber] <;> omega

/-- C6.  When the grammar's positional metadata nests (the inner statement's
line span lies within the outer's, as `propagate_positions` guarantees), a
statement node found inside another yields a BLOCK chunk whose adjusted
line range is fully contained in the outer chunk's adjusted range, and both
chunks are emitted. -/
theorem c6_nested_block_containment
    (implOracle : ParseOracle) (implementation : String)
    (loc : Option SourceLocation) (pouName pouType : String)
    (fileId : Option Nat) (filePath : Option String)
    (actionName methodName : Option String)
    (t a b : LNode) (ma mb : LMeta)
    (hok : implOracle implementation = .ok t)
    (ha : a ∈ findStatementNodes t)
    (hb : b ∈ findStatementNodesList a.childrenOf)
    (hma : a.metaOf = some ma) (hmb : b.metaOf = some mb)
    (hstart : ma.line ≤ mb.line)
    (hend : effectiveEndLine mb ≤ effectiveEndLine ma) :
    ∃ ca cb,
      createBlockChunk a implementation loc pouName pouType fileId filePath
        actionName methodName = some ca ∧
      createBlockChunk b implementation loc pouName pouType fileId filePath
        actionName methodName = some cb ∧
      ca ∈ (extractBlocksFromImplementation implOracle implementation loc
        pouName pouType fileId filePath actionName methodName).1 ∧
      cb ∈ (extractBlocksFromImplementation implOracle implementation loc
        pouName pouType fileId filePath actionName methodName).1 ∧
      ca.start_line ≤ cb.start_line ∧ cb.end_line ≤ ca.end_line := by
  have h1 : ∃ ca, createBlockChunk a implementation loc pouName pouType fileId
      filePath actionName methodName = some ca ∧
      ca.start_line = adjustLineNumber ma.line loc ∧
      ca.end_line = adjustLineNumber (effectiveEndLine ma) loc := by
    simp only [createBlockChunk, hma]
    exact ⟨_, rfl, rfl, rfl⟩
  have h2 : ∃ cb, createBlockChunk b implementation loc pouName pouType fileId
      filePath actionName methodName = some cb ∧
      cb.start_line = adjustLineNumber mb.line loc ∧
      cb.end_line = adjustLineNumber (effectiveEndLine mb) loc := by
    simp only [createBlockChunk, hmb]
    exact ⟨_, rfl, rfl, rfl⟩
  obtain ⟨ca, hca, hcas, hcae⟩ := h1
  obtain ⟨cb, hcb, hcbs, hcbe⟩ := h2
  have hbt : b ∈ findStatementNodes t := findStatementNodes_trans t a b ha hb
  refine ⟨ca, cb, hca, hcb, ?_, ?_, ?_, ?_⟩
  · simp only [extractBlocksFromImplementation, hok]
    exact mem_blockChunksOfNodes implementation loc pouName pouType fileId
      filePath actionName methodName ha hca
  · simp only [extractBlocksFromImplementation, hok]
    exact mem_blockChunksOfNodes implementation loc pouName pouType fileId
      filePath actionName methodName hbt hcb
  · rw [hcas, hcbs]
    exact adjustLineNumber_mono loc hstart
  · rw [hcae, hcbe]
    exact adjustLineNumber_mono loc hend

/-- A nested `IF` statement node (grammar-relative lines 2–3). -/
def wIfNode : LNode := .tree "if_stmt" (some ⟨2, some 3⟩) []

/-- A `WHILE` statement node (grammar-relative lines 1–4) containing the IF. -/
def wWhileNode : LNode := .tree "while_stmt" (some ⟨1, some 4⟩) [wIfNode]

/-- Witness for C6: a WHILE body with a nested IF, anchored at file line 10. -/
theorem c6_nested_block_containment_witness :
    ((fun _ => Except.ok wWhileNode : ParseOracle) "WHILE b DO\nIF c THEN\nEND_IF;\nEND_WHILE;" =
      .ok wWhileNode) ∧
    wWhileNode ∈ findStatementNodes wWhileNode ∧
    wIfNode ∈ findStatementNodesList wWhileNode.childrenOf ∧
    (∃ ca cb,
      createBlockChunk wWhileNode "WHILE b DO\nIF c THEN\nEND_IF;\nEND_WHILE;"
        (some ⟨10, 1, 100⟩) "MAIN" "PROGRAM" none none none none = some ca ∧
      createBlockChunk wIfNode "WHILE b DO\nIF c THEN\nEND_IF;\nEND_WHILE;"
        (some ⟨10, 1, 100⟩) "MAIN" "PROGRAM" none none none none = some cb ∧
      ca ∈ (extractBlocksFromImplementation (fun _ => Except.ok wWhileNode)
        "WHILE b DO\nIF c THEN\nEND_IF;\nEND_WHILE;" (some ⟨10, 1, 100⟩)
        "MAIN" "PROGRAM" none none none none).1 ∧
      cb ∈ (extractBlocksFromImplementation (fun _ => Except.ok wWhileNode)
        "WHILE b DO\nIF c THEN\nEND_IF;\nEND_WHILE;" (some ⟨10, 1, 100⟩)
        "MAIN" "PROGRAM" none none none none).1 ∧
      ca.start_line ≤ cb.start_line ∧ cb.end_line ≤ ca.end_line) :=
  ⟨rfl, List.mem_cons_self _ _, List.mem_cons_self _ _,
   c6_nested_block_containment (fun _ => Except.ok wWhileNode)
     "WHILE b DO\nIF c THEN\nEND_IF;\nEND_WHILE;" (some ⟨10, 1, 100⟩)
     "MAIN" "PROGRAM" none none none none wWhileNode wWhileNode wIfNode
     ⟨1, some 4⟩ ⟨2, some 3⟩ rfl (List.mem_cons_self _ _)
     (List.mem_cons_self _ _) rfl rfl (by decide) (by decide)⟩

/-! ## C8: the CDATA position locator -/

/-- `findSub` really finds the pattern: the pattern occurs at the returned
index. -/
theorem findSub_spec (cs pat : List Char) (i : Nat)
    (h : findSub cs pat = some i) : (cs.drop i).take pat.length = pat := by
  induction cs generalizing i with
  | nil =>
      rw [findSub] at h
      split at h
      · obtain rfl := Option.some.inj h
        simpa using (by assumption : List.take pat.length [] = pat)
      · cases h
  | cons c rest ih =>
      rw [findSub] at h
      split at h
      · obtain rfl := Option.some.inj h
        simpa using (by assumption)
      · obtain ⟨i2, hi2, rfl⟩ := Option.map_eq_some'.mp h
        simpa using ih i2 hi2

/-- `rfindNl` finds the last newline: `none` means no newline at all, and a
returned index holds a newline with none after it. -/
theorem rfindNl_spec (cs : List Char) :
    (rfindNl cs = none → ∀ k, k < cs.length → cs[k]? ≠ some '\n') ∧
    (∀ j, rfindNl cs = some j →
      j < cs.length ∧ cs[j]? = some '\n' ∧
      ∀ k, j < k → k < cs.length → cs[k]? ≠ some '\n') := by
  induction cs with
  | nil => exact ⟨fun _ k hk => absurd hk (by simp), fun j hj => by cases hj⟩
  | cons c rest ih =>
      rcases hr : rfindNl rest with _ | i
      · by_cases hc : c = '\n'
        · constructor
          · intro hn
            simp [rfindNl, hr, hc] at hn
          · intro j hj
            simp only [rfindNl, hr, if_pos hc] at hj
            obtain rfl := Option.some.inj hj
            refine ⟨by simp, by simp [hc], ?_⟩
            intro k hk0 hklen
            rcases k with _ | k2
            · omega
            · simp only [List.getElem?_cons_succ]
              exact ih.1 hr k2 (by simpa using hklen)
        · constructor
          · intro _ k hk
            rcases k with _ | k2
            · simpa using hc
            · simp only [List.getElem?_cons_succ]
              exact ih.1 hr k2 (by simpa using hk)
          · intro j hj
            simp [rfindNl, hr, hc] at hj
      · constructor
        · intro hn
          simp [rfindNl, hr] at hn
        · intro j hj
          simp only [rfindNl, hr] at hj
          obtain rfl := Option.some.inj hj
          obtain ⟨hilen, hinl, hiafter⟩ := ih.2 i hr
          refine ⟨by simpa using hilen, by simpa using hinl, ?_⟩
          intro k hk0 hklen
          rcases k with _ | k2
          · omega
          · simp only [List.getElem?_cons_succ]
            exact hiafter k2 (by omega) (by simpa using hklen)

/-- C8.  Whenever the position locator returns a location, the location's
offset `n` is the 0-indexed position of the first content character after a
CDATA-open marker (the marker occupies the 9 characters before it), its
line is 1 plus the number of newline characters before that offset, and its
column is the offset minus the index of the last preceding newline, or
offset + 1 when no newline precedes.  (On any failed step the locator
returns nothing, being a total function into `Option`.) -/
theorem c8_cdata_locator (xmlText : String) (searchStart : Nat)
    (elementPath : List String) (loc : SourceLocation)
    (h : findCdataContentStart xmlText searchStart elementPath = some loc) :
    ∃ n : Nat,
      loc.pos = (n : Int) ∧
      9 ≤ n ∧ n ≤ xmlText.data.length ∧
      (xmlText.data.drop (n - 9)).take 9 = cdataMarker ∧
      loc.line =
        (((xmlText.data.take n).filter (fun c => c = '\n')).length : Int) + 1 ∧
      ((∀ k, k < n → xmlText.data[k]? ≠ some '\n') →
        loc.column = (n : Int) + 1) ∧
      (∀ j, j < n → xmlText.data[j]? = some '\n' →
        (∀ k, j < k → k < n → xmlText.data[k]? ≠ some '\n') →
        loc.column = (n : Int) - (j : Int)) := by
  rcases hw : walkElementPath xmlText.data searchStart elementPath with _ | pos
  · simp only [findCdataContentStart, hw] at h
    cases h
  · rcases hf : findSub (xmlText.data.drop pos) cdataMarker with _ | rel
    · simp only [findCdataContentStart, hw, hf] at h
      cases h
    · simp only [findCdataContentStart, hw, hf] at h
      obtain rfl := Option.some.inj h
      have hmark0 := findSub_spec _ _ _ hf
      rw [List.drop_drop] at hmark0
      have hmlen : cdataMarker.length = 9 := rfl
      rw [hmlen] at hmark0
      have hlen : pos + rel + 9 ≤ xmlText.data.length := by
        have h9 := congrArg List.length hmark0
        rw [List.length_take, List.length_drop] at h9
        have : cdataMarker.length = 9 := rfl
        omega
      have htke : (xmlText.data.take (pos + rel + 9)).length = pos + rel + 9 := by
        rw [List.length_take]
        omega
      refine ⟨pos + rel + 9, rfl, by omega, hlen, ?_, rfl, ?_, ?_⟩
      · have h99 : pos + rel + 9 - 9 = pos + rel := by omega
        rw [h99]
        exact hmark0
      · intro hnone
        have hrn : rfindNl (xmlText.data.take (pos + rel + 9)) = none := by
          rcases hr : rfindNl (xmlText.data.take (pos + rel + 9)) with _ | j
          · rfl
          · obtain ⟨hjlen, hjnl, _⟩ := (rfindNl_spec _).2 j hr
            rw [htke] at hjlen
            rw [List.getElem?_take, if_pos hjlen] at hjnl
            exact absurd hjnl (hnone j hjlen)
        show (match rfindNl (xmlText.data.take (pos + rel + 9)) with
          | none => ((pos + rel + 9 : Nat) : Int) + 1
          | some lastNl => ((pos + rel + 9 : Nat) : Int) - (lastNl : Int)) = _
        rw [hrn]
      · intro j hj hnl hafter
        rcases hr : rfindNl (xmlText.data.take (pos + rel + 9)) with _ | j2
        · have hcontra := (rfindNl_spec _).1 hr j (by rw [htke]; exact hj)
          rw [List.getElem?_take, if_pos hj] at hcontra
          exact absurd hnl hcontra
        · obtain ⟨hjlen, hjnl, hjafter⟩ := (rfindNl_spec _).2 j2 hr
          rw [htke] at hjlen
          rw [List.getElem?_take, if_pos hjlen] at hjnl
          have hje : j2 = j := by
            rcases Nat.lt_trichotomy j2 j with hlt2 | heq | hgt
            · have hjn := hjafter j (by omega) (by rw [htke]; exact hj)
              rw [List.getElem?_take, if_pos hj] at hjn
              exact absurd hnl hjn
            · exact heq
            · exact absurd hjnl (hafter j2 hgt hjlen)
          subst hje
          show (match rfindNl (xmlText.data.take (pos + rel + 9)) with
            | none => ((pos + rel + 9 : Nat) : Int) + 1
            | some lastNl => ((pos + rel + 9 : Nat) : Int) - (lastNl : Int)) = _
          rw [hr]

/-- A small TcPOU XML fixture. -/
def wXml : String :=
  "<TcPlcObject>\n  <POU Name=\"MAIN\" Id=\"1\">\n    <Declaration><![CDATA[PROGRAM MAIN\nVAR\nEND_VAR]]></Declaration>\n  </POU>\n</TcPlcObject>"

/-- Witness for C8: the fixture's Declaration CDATA content starts at offset
67 on line 3, column 27. -/
theorem c8_cdata_locator_witness :
    findCdataContentStart wXml 0 ["Declaration"] =
      some { line := 3, column := 27, pos := 67 } ∧
    ∃ n : Nat,
      ({ line := 3, column := 27, pos := 67 } : SourceLocation).pos = (n : Int) ∧
      9 ≤ n ∧ n ≤ wXml.data.length ∧
      (wXml.data.drop (n - 9)).take 9 = cdataMarker ∧
      ({ line := 3, column := 27, pos := 67 } : SourceLocation).line =
        (((wXml.data.take n).filter (fun c => c = '\n')).length : Int) + 1 ∧
      ((∀ k, k < n → wXml.data[k]? ≠ some '\n') →
        ({ line := 3, column := 27, pos := 67 } : SourceLocation).column =
          (n : Int) + 1) ∧
      (∀ j, j < n → wXml.data[j]? = some '\n' →
        (∀ k, j < k → k < n → wXml.data[k]? ≠ some '\n') →
        ({ line := 3, column := 27, pos := 67 } : SourceLocation).column =
          (n : Int) - (j : Int)) :=
  ⟨by decide,
   c8_cdata_locator wXml 0 ["Declaration"] { line := 3, column := 27, pos := 67 }
     (by decide)⟩

/-! ## C10: block and line comment scans are independent -/

/-- Each match in the list contributes its comment chunk. -/
theorem mem_commentChunksOfMatches {ms : List (Nat × Nat)} {m : Nat × Nat}
    (source : String) (fileId : Option Nat) (filePath : Option String)
    (pouName pouType : String) (baseLine : Int) (commentType : String)
    (methodName actionName : Option String) (hm : m ∈ ms) :
    createCommentChunk (matchText source m) (newlinesBefore source m.1 + baseLine)
      fileId filePath pouName pouType commentType methodName actionName ∈
    commentChunksOfMatches ms source fileId filePath pouName pouType baseLine
      commentType methodName actionName := by
  induction ms with
  | nil => cases hm
  | cons m2 rest ih =>
      rw [commentChunksOfMatches]
      rcases List.mem_cons.mp hm with rfl | hm2
      · exact List.mem_cons_self _ _
      · exact List.mem_cons_of_mem _ (ih hm2)

/-- `takeWhile` never lengthens a list. -/
theorem takeWhile_length_le (p : Char → Bool) (l : List Char) :
    (l.takeWhile p).length ≤ l.length := by
  induction l with
  | nil => simp
  | cons c rest ih =>
      rw [List.takeWhile_cons]
      cases hpc : p c <;> simp <;> omega

/-- Every `//` occurrence is covered by some line-comment match: the scan
runs over the raw text, so a `//` inside a block comment still lands inside
a line match. -/
theorem lineMatchesGo_cover (fuel : Nat) :
    ∀ (cs : List Char) (pos p : Nat), cs.length ≤ fuel →
    cs[p]? = some '/' → cs[p + 1]? = some '/' →
    ∃ q len, (q, len) ∈ lineMatchesGo fuel cs pos ∧
      q ≤ pos + p ∧ pos + p < q + len := by
  induction fuel with
  | zero =>
      intro cs pos p hf h1 h2
      have hcs : cs = [] := List.length_eq_zero.mp (Nat.le_zero.mp hf)
      rw [hcs] at h1
      cases h1
  | succ fuel ih =>
      intro cs pos p hf h1 h2
      match cs with
      | [] => cases h1
      | c :: rest =>
          rw [lineMatchesGo]
          by_cases hcc : c = '/' ∧ rest.head? = some '/'
          · rw [if_pos hcc]
            by_cases hp : p < 2 + (rest.tail.takeWhile (fun ch => ch ≠ '\n')).length
            · exact ⟨pos, 2 + (rest.tail.takeWhile (fun ch => ch ≠ '\n')).length,
                List.mem_cons_self _ _, by omega, by omega⟩
            · push_neg at hp
              rcases rest with _ | ⟨c2, r2⟩
              · cases hcc.2
              · simp only [List.tail_cons] at hp ⊢
                have hble : (r2.takeWhile (fun ch => ch ≠ '\n')).length ≤ r2.length :=
                  takeWhile_length_le _ _
                rcases p with _ | p1
                · omega
                rcases p1 with _ | p2
                · omega
                simp only [List.getElem?_cons_succ] at h1 h2
                have hfl : (r2.drop
                    ((r2.takeWhile (fun ch => ch ≠ '\n')).length)).length ≤ fuel := by
                  simp only [List.length_cons] at hf
                  rw [List.length_drop]
                  omega
                have hb2 : p2 ≥ (r2.takeWhile (fun ch => ch ≠ '\n')).length := by
                  omega
                have hg1 : (r2.drop ((r2.takeWhile (fun ch => ch ≠ '\n')).length))[
                    p2 - (r2.takeWhile (fun ch => ch ≠ '\n')).length]? = some '/' := by
                  rw [List.getElem?_drop]
                  have : (r2.takeWhile (fun ch => ch ≠ '\n')).length +
                      (p2 - (r2.takeWhile (fun ch => ch ≠ '\n')).length) = p2 := by
                    omega
                  rw [this]
                  exact h1
                have hg2 : (r2.drop ((r2.takeWhile (fun ch => ch ≠ '\n')).length))[
                    p2 - (r2.takeWhile (fun ch => ch ≠ '\n')).length + 1]? =
                    some '/' := by
                  rw [List.getElem?_drop]
                  have : (r2.takeWhile (fun ch => ch ≠ '\n')).length +
                      (p2 - (r2.takeWhile (fun ch => ch ≠ '\n')).length + 1) =
                      p2 + 1 := by
                    omega
                  rw [this]
                  exact h2
                obtain ⟨q, len, hmem, hq1, hq2⟩ := ih _
                  (pos + 2 + (r2.takeWhile (fun ch => ch ≠ '\n')).length)
                  (p2 - (r2.takeWhile (fun ch => ch ≠ '\n')).length) hfl hg1 hg2
                refine ⟨q, len, List.mem_cons_of_mem _ hmem, by omega, by omega⟩
          · rw [if_neg hcc]
            rcases p with _ | p1
            · exfalso
              apply hcc
              refine ⟨by simpa using h1, ?_⟩
              rcases rest with _ | ⟨c2, r2⟩
              · cases h2
              · simpa using h2
            · simp only [List.getElem?_cons_succ] at h1 h2
              have hfl : rest.length ≤ fuel := by
                simp only [List.length_cons] at hf
                omega
              obtain ⟨q, len, hmem, hq1, hq2⟩ := ih rest (pos + 1) p1 hfl h1 h2
              exact ⟨q, len, hmem, by omega, by omega⟩

/-- C10 counterexample: in `"// a (* // b *)"` the block comment
`"(* // b *)"` contains `//` at offset 8, yet the only line-comment match
starts at offset 0 — no line COMMENT chunk *starts at* the `//` inside the
block comment (the emitted line chunk merely overlaps it). -/
theorem c10_comment_overlap_counterexample :
    blockCommentMatches "// a (* // b *)" = [(5, 10)] ∧
    "// a (* // b *)".data[8]? = some '/' ∧
    "// a (* // b *)".data[9]? = some '/' ∧
    lineCommentMatches "// a (* // b *)" = [(0, 15)] ∧
    (extractCommentChunks "// a (* // b *)" none none "P" "PROGRAM" 1 none
      none).map Chunk.code = ["(* // b *)", "// a (* // b *)"] := by
  decide

/-- C10 as amended.  The line-comment scan runs over the raw text
independently of the block-comment scan: for every block-comment match
containing a `//`, the block COMMENT chunk for the whole match is emitted,
and some line COMMENT chunk whose matched span contains that `//` is also
emitted (it starts exactly at the `//` only when no earlier `//` consumed
it first). -/
theorem c10_comment_overlap (source : String) (fileId : Option Nat)
    (filePath : Option String) (pouName pouType : String) (baseLine : Int)
    (methodName actionName : Option String) (s l p : Nat)
    (hm : (s, l) ∈ blockCommentMatches source)
    (_hs : s ≤ p) (_he : p + 1 < s + l)
    (hp1 : source.data[p]? = some '/') (hp2 : source.data[p + 1]? = some '/') :
    (createCommentChunk (matchText source (s, l))
        (newlinesBefore source s + baseLine) fileId filePath pouName pouType
        "block" methodName actionName ∈
      extractCommentChunks source fileId filePath pouName pouType baseLine
        methodName actionName) ∧
    ∃ q len, (q, len) ∈ lineCommentMatches source ∧ q ≤ p ∧ p < q + len ∧
      createCommentChunk (matchText source (q, len))
          (newlinesBefore source q + baseLine) fileId filePath pouName pouType
          "line" methodName actionName ∈
        extractCommentChunks source fileId filePath pouName pouType baseLine
          methodName actionName := by
  constructor
  · exact List.mem_append_left _
      (mem_commentChunksOfMatches source fileId filePath pouName pouType
        baseLine "block" methodName actionName hm)
  · obtain ⟨q, len, hmem, hq1, hq2⟩ :=
      lineMatchesGo_cover source.data.length source.data 0 p le_rfl hp1 hp2
    exact ⟨q, len, hmem, by omega, by omega,
      List.mem_append_right _
        (mem_commentChunksOfMatches source fileId filePath pouName pouType
          baseLine "line" methodName actionName hmem)⟩

/-- Witness for C10: `"(* x\n// y\n*)"` has one block match (0,12) holding a
`//` at offset 5, and the theorem yields the overlapping line chunk. -/
theorem c10_comment_overlap_witness :
    ((0, 12) ∈ blockCommentMatches "(* x\n// y\n*)" ∧
      (0 : Nat) ≤ 5 ∧ 5 + 1 < 0 + 12 ∧
      "(* x\n// y\n*)".data[5]? = some '/' ∧
      "(* x\n// y\n*)".data[5 + 1]? = some '/') ∧
    ((createCommentChunk (matchText "(* x\n// y\n*)" (0, 12))
        (newlinesBefore "(* x\n// y\n*)" 0 + 1) none none "P" "PROGRAM"
        "block" none none ∈
      extractCommentChunks "(* x\n// y\n*)" none none "P" "PROGRAM" 1 none
        none) ∧
    ∃ q len, (q, len) ∈ lineCommentMatches "(* x\n// y\n*)" ∧ q ≤ 5 ∧
      5 < q + len ∧
      createCommentChunk (matchText "(* x\n// y\n*)" (q, len))
          (newlinesBefore "(* x\n// y\n*)" q + 1) none none "P" "PROGRAM"
          "line" none none ∈
        extractCommentChunks "(* x\n// y\n*)" none none "P" "PROGRAM" 1 none
          none) :=
  ⟨⟨by decide, by decide, by decide, by decide, by decide⟩,
   c10_comment_overlap "(* x\n// y\n*)" none none "P" "PROGRAM" 1 none none
     0 12 5 (by decide) (by decide) (by decide) (by decide) (by decide)⟩

/-! ## Support lemmas for the partial-failure analysis -/

/-- Dropping a satisfied prefix does not change whether all elements
satisfy the predicate. -/
theorem all_dropWhile_iff (p : Char → Bool) (l : List Char) :
    (∀ c ∈ l.dropWhile p, p c) ↔ (∀ c ∈ l, p c) := by
  induction l with
  | nil => simp
  | cons c rest ih =>
      rw [List.dropWhile_cons]
      by_cases hc : p c
      · rw [if_pos hc, ih]
        constructor
        · intro h c2 hc2
          rcases List.mem_cons.mp hc2 with rfl | hc3
          · exact hc
          · exact h c2 hc3
        · intro h c2 hc2
          exact h c2 (List.mem_cons_of_mem c hc2)
      · rw [if_neg hc]

/-- `pyStrip` yields the empty string exactly when every character is
whitespace. -/
theorem pyStrip_eq_empty_iff (s : String) :
    pyStrip s = "" ↔ ∀ c ∈ s.data, isPySpace c := by
  rw [pyStrip, String.ext_iff]
  show ((s.data.dropWhile isPySpace).reverse.dropWhile isPySpace).reverse =
    ([] : List Char) ↔ _
  rw [List.reverse_eq_nil_iff, List.dropWhile_eq_nil_iff]
  constructor
  · intro h c hc
    exact (all_dropWhile_iff isPySpace s.data).mp
      (fun c2 hc2 => h c2 (List.mem_reverse.mpr hc2)) c hc
  · intro h c hc
    exact h c ((List.dropWhile_sublist isPySpace).subset (List.mem_reverse.mp hc))

/-- A non-blank string stays non-blank after appending anything. -/
theorem pyStrip_append_ne_empty {d : String} (x : String) (h : pyNonBlank d) :
    pyStrip (d ++ x) ≠ "" := by
  intro hc
  have hall := (pyStrip_eq_empty_iff _).mp hc
  have hde : pyStrip d = "" := by
    rw [pyStrip_eq_empty_iff]
    intro c hcd
    exact hall c (by rw [String.data_append]; exact List.mem_append_left _ hcd)
  rw [pyNonBlank, Bool.and_eq_true] at h
  have h2 := h.2
  rw [hde] at h2
  exact absurd h2 (by decide)

/-- A non-blank string is non-empty. -/
theorem pyNonBlank_ne_empty {d : String} (h : pyNonBlank d) : d ≠ "" := by
  rw [pyNonBlank, Bool.and_eq_true] at h
  intro hc
  rw [hc] at h
  exact absurd h.1 (by decide)

/-- Every chunk of a block-chunk node list is a BLOCK chunk. -/
theorem blockChunks_chunk_type {nodes : List LNode} {c : Chunk}
    (implementation : String) (loc : Option SourceLocation)
    (pouName pouType : String) (fileId : Option Nat) (filePath : Option String)
    (actionName methodName : Option String)
    (hc : c ∈ blockChunksOfNodes nodes implementation loc pouName pouType
      fileId filePath actionName methodName) :
    c.chunk_type = ChunkType.BLOCK := by
  induction nodes with
  | nil => cases hc
  | cons n rest ih =>
      rw [blockChunksOfNodes, List.mem_append] at hc
      rcases hc with hc | hc
      · rcases hcb : createBlockChunk n implementation loc pouName pouType
          fileId filePath actionName methodName with _ | c2
        · rw [hcb] at hc
          cases hc
        · rw [hcb] at hc
          simp only [Option.toList_some, List.mem_singleton] at hc
          subst hc
          rcases n with ⟨dd, mm, cc⟩ | ⟨ty, v⟩
          · rcases mm with _ | m2
            · cases hcb
            · simp only [createBlockChunk, LNode.metaOf] at hcb
              obtain rfl := Option.some.inj hcb
              rfl
          · cases hcb
      · exact ih hc

/-- Every chunk of the block extraction is a BLOCK chunk. -/
theorem extractBlocks_chunk_type {c : Chunk} (implOracle : ParseOracle)
    (implementation : String) (loc : Option SourceLocation)
    (pouName pouType : String) (fileId : Option Nat) (filePath : Option String)
    (actionName methodName : Option String)
    (hc : c ∈ (extractBlocksFromImplementation implOracle implementation loc
      pouName pouType fileId filePath actionName methodName).1) :
    c.chunk_type = ChunkType.BLOCK := by
  rcases ho : implOracle implementation with e | t
  · rw [extractBlocksFromImplementation, ho] at hc
    cases hc
  · rw [extractBlocksFromImplementation, ho] at hc
    exact blockChunks_chunk_type implementation loc pouName pouType fileId
      filePath actionName methodName hc

/-- Every chunk of the comment extraction is a COMMENT chunk. -/
theorem extractComments_chunk_type {c : Chunk} (source : String)
    (fileId : Option Nat) (filePath : Option String) (pouName pouType : String)
    (baseLine : Int) (methodName actionName : Option String)
    (hc : c ∈ extractCommentChunks source fileId filePath pouName pouType
      baseLine methodName actionName) :
    c.chunk_type = ChunkType.COMMENT := by
  have haux : ∀ (ms : List (Nat × Nat)) (commentType : String),
      ∀ c2 ∈ commentChunksOfMatches ms source fileId filePath pouName pouType
        baseLine commentType methodName actionName,
      c2.chunk_type = ChunkType.COMMENT := by
    intro ms commentType
    induction ms with
    | nil => intro c2 hc2; cases hc2
    | cons m rest ih =>
        intro c2 hc2
        rw [commentChunksOfMatches] at hc2
        rcases List.mem_cons.mp hc2 with rfl | hc3
        · rfl
        · exact ih c2 hc3
  rw [extractCommentChunks, List.mem_append] at hc
  rcases hc with hc | hc
  · exact haux _ "block" c hc
  · exact haux _ "line" c hc

/-- Every chunk of the property extraction is a PROPERTY chunk. -/
theorem extractProperty_chunk_type {c : Chunk} (prop : PropertyContent)
    (content : POUContent) (fileId : Option Nat) (filePath : Option String)
    (hc : c ∈ extractPropertyChunks prop content fileId filePath) :
    c.chunk_type = ChunkType.PROPERTY := by
  rw [extractPropertyChunks] at hc
  split at hc
  · cases hc
  · simp only [List.mem_singleton] at hc
    subst hc
    rfl

/-- Every chunk of the property loop is a PROPERTY chunk. -/
theorem processProperties_chunk_type {c : Chunk} (ps : List PropertyContent)
    (content : POUContent) (fileId : Option Nat) (filePath : Option String)
    (hc : c ∈ processProperties ps content fileId filePath) :
    c.chunk_type = ChunkType.PROPERTY := by
  induction ps with
  | nil => cases hc
  | cons p rest ih =>
      rw [processProperties, List.mem_append] at hc
      rcases hc with hc | hc
      · exact extractProperty_chunk_type p content fileId filePath hc
      · exact ih hc

/-- The value the optional `action_name` metadata entry carries. -/
def actionEntryVal (an : Option String) : Option MValue :=
  match an with
  | some s => if s ≠ "" then some (.str s) else none
  | none => none

/-- Metadata shape of a single variable-declaration chunk: always FIELD or
VARIABLE, and its `action_name` entry is exactly the action context. -/
theorem extractVarDecl_meta {c : Chunk} (varDecl : LNode) (content : POUContent)
    (fileId : Option Nat) (filePath : Option String) (varClass : String)
    (retain persistent constant : Bool) (declLoc : Option SourceLocation)
    (actionName methodName : Option String)
    (hc : c ∈ extractVarDeclarationChunk varDecl content fileId filePath
      varClass retain persistent constant declLoc actionName methodName) :
    (c.chunk_type = ChunkType.FIELD ∨ c.chunk_type = ChunkType.VARIABLE) ∧
    dictGet c.metadata "action_name" = actionEntryVal actionName := by
  simp only [extractVarDeclarationChunk, List.mem_map] at hc
  obtain ⟨nm, _, rfl⟩ := hc
  constructor
  · by_cases h : varClass = "global" ∨ varClass = "external" <;> simp [h]
  · rcases actionName with _ | s
    · rcases methodName with _ | s2
      · simp [dictGet, optEntry, actionEntryVal]
      · by_cases hs2 : s2 = "" <;> simp [dictGet, optEntry, actionEntryVal, hs2]
    · by_cases hs : s = "" <;>
        rcases methodName with _ | s2
      · simp [dictGet, optEntry, actionEntryVal, hs]
      · by_cases hs2 : s2 = "" <;> simp [dictGet, optEntry, actionEntryVal, hs, hs2]
      · simp [dictGet, optEntry, actionEntryVal, hs]
      · by_cases hs2 : s2 = "" <;> simp [dictGet, optEntry, actionEntryVal, hs, hs2]

/-- Metadata shape over a var-block child fold. -/
theorem varBlockFold_meta :
    ∀ (cs : List LNode) (content : POUContent) (fileId : Option Nat)
      (filePath : Option String) (loc : Option SourceLocation)
      (actionName methodName : Option String) (varClass : String)
      (retain persistent constant : Bool) (c : Chunk),
    c ∈ varBlockFold cs content fileId filePath loc actionName methodName
      varClass retain persistent constant →
    (c.chunk_type = ChunkType.FIELD ∨ c.chunk_type = ChunkType.VARIABLE) ∧
    dictGet c.metadata "action_name" = actionEntryVal actionName := by
  intro cs
  induction cs with
  | nil =>
      intro content fileId filePath loc an mn cls r p k c hc
      cases hc
  | cons child rest ih =>
      intro content fileId filePath loc an mn cls r p k c hc
      match child with
      | .token ty v =>
          rw [varBlockFold] at hc
          exact ih content fileId filePath loc an mn cls r p k c hc
      | .tree d mm cc =>
          rw [varBlockFold] at hc
          by_cases h1 : d = "var_block_start"
          · rw [if_pos h1] at hc
            exact ih content fileId filePath loc an mn _ r p k c hc
          · rw [if_neg h1] at hc
            by_cases h2 : d = "var_qualifier"
            · rw [if_pos h2] at hc
              exact ih content fileId filePath loc an mn cls _ _ _ c hc
            · rw [if_neg h2] at hc
              by_cases h3 : d = "var_declaration"
              · rw [if_pos h3] at hc
                rcases List.mem_append.mp hc with hc | hc
                · exact extractVarDecl_meta _ content fileId filePath cls r p k
                    loc an mn hc
                · exact ih content fileId filePath loc an mn cls r p k c hc
              · rw [if_neg h3] at hc
                exact ih content fileId filePath loc an mn cls r p k c hc

/-- Metadata shape over the whole variable extraction. -/
theorem extractVariableChunks_meta {c : Chunk} (t : LNode)
    (content : POUContent) (fileId : Option Nat) (filePath : Option String)
    (declLoc : Option SourceLocation) (actionName methodName : Option String)
    (hc : c ∈ extractVariableChunksFromTree t content fileId filePath declLoc
      actionName methodName) :
    (c.chunk_type = ChunkType.FIELD ∨ c.chunk_type = ChunkType.VARIABLE) ∧
    dictGet c.metadata "action_name" = actionEntryVal actionName := by
  rw [extractVariableChunksFromTree] at hc
  generalize hbs : findNodes t "var_block" = blocks at hc
  clear hbs
  induction blocks with
  | nil => cases hc
  | cons b rest ih =>
      rw [varBlocksChunks, List.mem_append] at hc
      rcases hc with hc | hc
      · exact varBlockFold_meta _ content fileId filePath _ actionName
          methodName _ _ _ _ c hc
      · exact ih hc

/-- Method-segment chunks that are FIELD or VARIABLE never carry an
`action_name` entry. -/
theorem extractMethodChunks_fv_no_action {c : Chunk}
    (declOracle implOracle : ParseOracle) (m : MethodContent)
    (content : POUContent) (fileId : Option Nat) (filePath : Option String)
    (hc : c ∈ (extractMethodChunks declOracle implOracle m content fileId
      filePath).1)
    (hf : c.chunk_type = ChunkType.FIELD ∨ c.chunk_type = ChunkType.VARIABLE) :
    dictGet c.metadata "action_name" = none := by
  rw [extractMethodChunks] at hc
  split at hc
  · cases hc
  · simp only [List.mem_cons, List.mem_append] at hc
    rcases hc with ((((rfl | hc) | hc) | hc) | hc)
    · simp at hf
    · split at hc
      · split at hc
        · have := extractVariableChunks_meta _ content fileId filePath
            m.declaration_location none (some m.name) hc
          exact this.2
        · cases hc
      · cases hc
    · have := extractBlocks_chunk_type implOracle m.implementation
        m.implementation_location content.name (pyUpper content.pou_type)
        fileId filePath none (some m.name) (by
          split at hc
          · exact hc
          · cases hc)
      rw [this] at hf
      simp at hf
    · have := extractComments_chunk_type m.declaration fileId filePath
        content.name (pyUpper content.pou_type) _ (some m.name) none (by
          split at hc
          · exact hc
          · cases hc)
      rw [this] at hf
      simp at hf
    · have := extractComments_chunk_type m.implementation fileId filePath
        content.name (pyUpper content.pou_type) _ (some m.name) none (by
          split at hc
          · exact hc
          · cases hc)
      rw [this] at hf
      simp at hf

/-- Methods whose declaration parses (or is blank) append no errors when the
implementation oracle always succeeds. -/
theorem extractMethodChunks_errors_empty (declOracle implOracle : ParseOracle)
    (m : MethodContent) (content : POUContent) (fileId : Option Nat)
    (filePath : Option String)
    (hd : pyNonBlank m.declaration → ∃ t, declOracle m.declaration = .ok t)
    (hi : ∀ s, ∃ t, implOracle s = .ok t) :
    (extractMethodChunks declOracle implOracle m content fileId filePath).2 = [] := by
  rw [extractMethodChunks]
  split
  · rfl
  · cases hdm : pyNonBlank m.declaration with
    | false =>
        cases himp : pyNonBlank m.implementation with
        | false => simp [hdm, himp]
        | true =>
            obtain ⟨ti, hti⟩ := hi m.implementation
            simp [hdm, himp, extractBlocksFromImplementation, hti]
    | true =>
        obtain ⟨td, htd⟩ := hd hdm
        cases himp : pyNonBlank m.implementation with
        | false => simp [hdm, himp, htd]
        | true =>
            obtain ⟨ti, hti⟩ := hi m.implementation
            simp [hdm, himp, htd, extractBlocksFromImplementation, hti]

/-- The method loop appends no errors under the same conditions. -/
theorem processMethods_errors_empty (declOracle implOracle : ParseOracle)
    (ms : List MethodContent) (content : POUContent) (fileId : Option Nat)
    (filePath : Option String)
    (hd : ∀ m ∈ ms, pyNonBlank m.declaration →
      ∃ t, declOracle m.declaration = .ok t)
    (hi : ∀ s, ∃ t, implOracle s = .ok t) :
    (processMethods declOracle implOracle ms content fileId filePath).2 = [] := by
  induction ms with
  | nil => rfl
  | cons m rest ih =>
      rw [processMethods]
      show (extractMethodChunks declOracle implOracle m content fileId
        filePath).2 ++ (processMethods declOracle implOracle rest content
        fileId filePath).2 = []
      rw [extractMethodChunks_errors_empty declOracle implOracle m content
        fileId filePath (hd m (List.mem_cons_self m rest)) hi,
        ih (fun m2 hm2 => hd m2 (List.mem_cons_of_mem m hm2))]
      rfl

/-- The method extraction only consults the declaration oracle on the
method's declaration text. -/
theorem extractMethodChunks_congr (declOracle declOracle2 implOracle : ParseOracle)
    (m : MethodContent) (content : POUContent) (fileId : Option Nat)
    (filePath : Option String)
    (h : declOracle2 m.declaration = declOracle m.declaration) :
    extractMethodChunks declOracle2 implOracle m content fileId filePath =
    extractMethodChunks declOracle implOracle m content fileId filePath := by
  rw [extractMethodChunks, extractMethodChunks, h]

/-- The method loop under two oracles agreeing on every method declaration. -/
theorem processMethods_congr (declOracle declOracle2 implOracle : ParseOracle)
    (ms : List MethodContent) (content : POUContent) (fileId : Option Nat)
    (filePath : Option String)
    (h : ∀ m ∈ ms, declOracle2 m.declaration = declOracle m.declaration) :
    processMethods declOracle2 implOracle ms content fileId filePath =
    processMethods declOracle implOracle ms content fileId filePath := by
  induction ms with
  | nil => rfl
  | cons m rest ih =>
      rw [processMethods, processMethods,
        extractMethodChunks_congr declOracle declOracle2 implOracle m content
          fileId filePath (h m (List.mem_cons_self m rest)),
        ih (fun m2 hm2 => h m2 (List.mem_cons_of_mem m hm2))]

/-- A non-empty string has `isEmpty = false`. -/
theorem isEmpty_false_of_ne_empty {s : String} (h : s ≠ "") :
    s.isEmpty = false := by
  cases hh : s.isEmpty
  · rfl
  · exact absurd ((String.isEmpty_iff _).mp hh) h

/-- A non-blank string's strip is non-empty. -/
theorem pyNonBlank_strip_ne {s : String} (h : pyNonBlank s) :
    pyStrip s ≠ "" := by
  rw [pyNonBlank, Bool.and_eq_true] at h
  intro hc
  have h2 := h.2
  rw [hc] at h2
  exact absurd h2 (by decide)

/-- An action with a non-blank declaration has its declaration parsed. -/
theorem actionDeclAttempted_true {a : ActionContent} {d : String}
    (hdecl : a.declaration = some d) (hdnb : pyNonBlank d) :
    actionDeclAttempted a = true := by
  rw [actionDeclAttempted, hdecl, Bool.and_eq_true]
  refine ⟨?_, hdnb⟩
  show (!d.isEmpty) = true
  rw [isEmpty_false_of_ne_empty (pyNonBlank_ne_empty hdnb)]
  rfl

/-- An action with a non-blank declaration has a non-blank combined code. -/
theorem actionCombinedCode_nonblank {a : ActionContent} {d : String}
    (hdecl : a.declaration = some d) (hdnb : pyNonBlank d) :
    (pyStrip (actionCombinedCode a)).isEmpty = false := by
  have hdA : d ≠ "" := pyNonBlank_ne_empty hdnb
  rw [actionCombinedCode, hdecl]
  show (pyStrip (if pyNonBlank a.implementation then
    (if (if d ≠ "" then d else "") ≠ "" then (if d ≠ "" then d else "") ++ "\n\n"
     else (if d ≠ "" then d else "")) ++ a.implementation
    else (if d ≠ "" then d else ""))).isEmpty = false
  rw [if_pos hdA]
  cases himp : pyNonBlank a.implementation
  · simp only [Bool.false_eq_true, if_false]
    exact isEmpty_false_of_ne_empty (pyNonBlank_strip_ne hdnb)
  · simp only [if_true, if_pos hdA]
    have h2 := pyStrip_append_ne_empty ("\n\n" ++ a.implementation) hdnb
    rw [← String.append_assoc] at h2
    exact isEmpty_false_of_ne_empty h2

/-- The variable result of an action whose declaration fails to parse. -/
theorem actionVarRes_fail {declOracle : ParseOracle} {a : ActionContent}
    {d e : String} (content : POUContent) (fileId : Option Nat)
    (filePath : Option String) (hdecl : a.declaration = some d)
    (hdnb : pyNonBlank d) (hfail : declOracle d = .error e) :
    actionVarRes declOracle a content fileId filePath =
      ([], ["Action '" ++ a.name ++ "' declaration parse error: " ++ e]) := by
  rw [actionVarRes, if_pos (actionDeclAttempted_true hdecl hdnb), hdecl]
  show (match declOracle d with
    | .ok declTree =>
        (extractVariableChunksFromTree declTree content fileId filePath
          a.declaration_location (some a.name) none, [])
    | .error e =>
        ([], ["Action '" ++ a.name ++ "' declaration parse error: " ++ e])) = _
  rw [hfail]

/-- The variable result of an action whose declaration parses. -/
theorem actionVarRes_ok {declOracle : ParseOracle} {a : ActionContent}
    {d : String} {t : LNode} (content : POUContent) (fileId : Option Nat)
    (filePath : Option String) (hdecl : a.declaration = some d)
    (hdnb : pyNonBlank d) (hparse : declOracle d = .ok t) :
    actionVarRes declOracle a content fileId filePath =
      (extractVariableChunksFromTree t content fileId filePath
        a.declaration_location (some a.name) none, []) := by
  rw [actionVarRes, if_pos (actionDeclAttempted_true hdecl hdnb), hdecl]
  show (match declOracle d with
    | .ok declTree =>
        (extractVariableChunksFromTree declTree content fileId filePath
          a.declaration_location (some a.name) none, [])
    | .error e =>
        ([], ["Action '" ++ a.name ++ "' declaration parse error: " ++ e])) = _
  rw [hparse]

/-- An action's block extraction appends no errors when the implementation
oracle always succeeds. -/
theorem actionBlockRes_errors_empty (implOracle : ParseOracle)
    (a : ActionContent) (content : POUContent) (fileId : Option Nat)
    (filePath : Option String) (hi : ∀ s, ∃ t, implOracle s = .ok t) :
    (actionBlockRes implOracle a content fileId filePath).2 = [] := by
  rw [actionBlockRes]
  cases himp : pyNonBlank a.implementation
  · rfl
  · obtain ⟨ti, hti⟩ := hi a.implementation
    simp [extractBlocksFromImplementation, hti]

/-- The unit chunk is never a FIELD or VARIABLE chunk. -/
theorem createPouChunk_not_fv {c : Chunk} (content : POUContent)
    (fileId : Option Nat) (filePath : Option String)
    (h : createPouChunk content fileId filePath = some c) :
    c.chunk_type ≠ ChunkType.FIELD ∧ c.chunk_type ≠ ChunkType.VARIABLE := by
  simp only [createPouChunk] at h
  by_cases hg : (pyStrip (content.declaration ++
      (if pyNonBlank content.implementation then "\n\n" ++ content.implementation
       else ""))).isEmpty = true
  · rw [if_pos hg] at h
    cases h
  · rw [if_neg hg] at h
    obtain rfl := Option.some.inj h
    refine ⟨?_, ?_⟩ <;> (dsimp only; split_ifs <;> decide)

/-- Method-loop chunks that are FIELD or VARIABLE carry no `action_name`. -/
theorem processMethods_fv_no_action {c : Chunk}
    (declOracle implOracle : ParseOracle) (ms : List MethodContent)
    (content : POUContent) (fileId : Option Nat) (filePath : Option String)
    (hc : c ∈ (processMethods declOracle implOracle ms content fileId
      filePath).1)
    (hf : c.chunk_type = ChunkType.FIELD ∨ c.chunk_type = ChunkType.VARIABLE) :
    dictGet c.metadata "action_name" = none := by
  induction ms with
  | nil => cases hc
  | cons m rest ih =>
      rw [processMethods] at hc
      rcases List.mem_append.mp hc with hc | hc
      · exact extractMethodChunks_fv_no_action declOracle implOracle m content
          fileId filePath hc hf
      · exact ih hc

/-- The unit-level variable segment of `_process_pou_content`. -/
def pouVarRes (declOracle : ParseOracle) (content : POUContent)
    (fileId : Option Nat) (filePath : Option String) :
    List Chunk × List String :=
  if pyNonBlank content.declaration then
    match declOracle content.declaration with
    | .ok declTree =>
        (extractVariableChunksFromTree declTree content fileId filePath none
          none none, [])
    | .error e =>
        ([], ["Declaration parse error in " ++ content.name ++ ": " ++ e])
  else ([], [])

/-- The unit-level block segment of `_process_pou_content`. -/
def pouBlockRes (implOracle : ParseOracle) (content : POUContent)
    (fileId : Option Nat) (filePath : Option String) :
    List Chunk × List String :=
  if pyNonBlank content.implementation then
    extractBlocksFromImplementation implOracle content.implementation
      content.implementation_location content.name (pyUpper content.pou_type)
      fileId filePath none none
  else ([], [])

/-- The unit-level declaration-comment segment of `_process_pou_content`. -/
def pouDeclComments (content : POUContent) (fileId : Option Nat)
    (filePath : Option String) : List Chunk :=
  if pyNonBlank content.declaration then
    extractCommentChunks content.declaration fileId filePath content.name
      (pyUpper content.pou_type)
      (match content.declaration_location with
       | some loc => loc.line
       | none => 1) none none
  else []

/-- The unit-level implementation-comment segment of `_process_pou_content`. -/
def pouImplComments (content : POUContent) (fileId : Option Nat)
    (filePath : Option String) : List Chunk :=
  if pyNonBlank content.implementation then
    extractCommentChunks content.implementation fileId filePath content.name
      (pyUpper content.pou_type)
      (match content.implementation_location with
       | some loc => loc.line
       | none =>
           match content.declaration_location with
           | some loc => loc.line
           | none => 1) none none
  else []

/-- `_process_pou_content` decomposed into its emission segments. -/
theorem processPOUContent_eq (declOracle implOracle : ParseOracle)
    (content : POUContent) (fileId : Option Nat) (filePath : Option String) :
    processPOUContent declOracle implOracle content fileId filePath =
      ((createPouChunk content fileId filePath).toList ++
        (pouVarRes declOracle content fileId filePath).1 ++
        (pouBlockRes implOracle content fileId filePath).1 ++
        pouDeclComments content fileId filePath ++
        pouImplComments content fileId filePath ++
        (processActions declOracle implOracle content.actions content fileId
          filePath).1 ++
        (processMethods declOracle implOracle content.methods content fileId
          filePath).1 ++
        processProperties content.properties content fileId filePath,
       (pouVarRes declOracle content fileId filePath).2 ++
        (pouBlockRes implOracle content fileId filePath).2 ++
        (processActions declOracle implOracle content.actions content fileId
          filePath).2 ++
        (processMethods declOracle implOracle content.methods content fileId
          filePath).2) := rfl

/-- The unit variable segment when the declaration is non-blank and parses. -/
theorem pouVarRes_ok {declOracle : ParseOracle} {content : POUContent}
    {t : LNode} (fileId : Option Nat) (filePath : Option String)
    (hd : pyNonBlank content.declaration)
    (hp : declOracle content.declaration = .ok t) :
    pouVarRes declOracle content fileId filePath =
      (extractVariableChunksFromTree t content fileId filePath none none none,
       []) := by
  rw [pouVarRes, if_pos hd, hp]

/-- The unit block segment appends no errors when the implementation oracle
always succeeds. -/
theorem pouBlockRes_errors_empty (implOracle : ParseOracle)
    (content : POUContent) (fileId : Option Nat) (filePath : Option String)
    (hi : ∀ s, ∃ t, implOracle s = .ok t) :
    (pouBlockRes implOracle content fileId filePath).2 = [] := by
  rw [pouBlockRes]
  cases himp : pyNonBlank content.implementation
  · rfl
  · obtain ⟨ti, hti⟩ := hi content.implementation
    simp [extractBlocksFromImplementation, hti]

/-- The unit chunk exists whenever the declaration is non-blank, and it is
named after the unit. -/
theorem createPouChunk_some (content : POUContent) (fileId : Option Nat)
    (filePath : Option String) (h : pyNonBlank content.declaration) :
    ∃ c, createPouChunk content fileId filePath = some c ∧
      c.symbol = content.name := by
  have hne : pyStrip (content.declaration ++
      (if pyNonBlank content.implementation then "\n\n" ++ content.implementation
       else "")) ≠ "" :=
    pyStrip_append_ne_empty _ h
  simp only [createPouChunk, isEmpty_false_of_ne_empty hne, Bool.false_eq_true,
    if_false]
  exact ⟨_, rfl, rfl⟩

/-- The retention predicate of claim C2: a chunk survives the failing run
unless it is a variable chunk tagged with the failing action's name. -/
def c2Keep (aname : String) (c : Chunk) : Bool :=
  !(decide (c.chunk_type = ChunkType.FIELD ∨ c.chunk_type = ChunkType.VARIABLE)
    && decide (dictGet c.metadata "action_name" = some (.str aname)))

/-- A chunk that is neither FIELD nor VARIABLE is kept. -/
theorem c2Keep_of_not_fv {aname : String} {c : Chunk}
    (h : ¬(c.chunk_type = ChunkType.FIELD ∨ c.chunk_type = ChunkType.VARIABLE)) :
    c2Keep aname c = true := by
  rw [c2Keep, decide_eq_false h]
  rfl

/-- A chunk whose `action_name` entry is absent is kept. -/
theorem c2Keep_of_none {aname : String} {c : Chunk}
    (h : dictGet c.metadata "action_name" = none) :
    c2Keep aname c = true := by
  have h2 : ¬ dictGet c.metadata "action_name" = some (.str aname) := by
    rw [h]
    intro hc
    cases hc
  rw [c2Keep, decide_eq_false h2, Bool.and_false]
  rfl

/-- A variable chunk tagged with the action's name is dropped. -/
theorem c2Keep_false_of {aname : String} {c : Chunk}
    (hf : c.chunk_type = ChunkType.FIELD ∨ c.chunk_type = ChunkType.VARIABLE)
    (ha : dictGet c.metadata "action_name" = some (.str aname)) :
    c2Keep aname c = false := by
  rw [c2Keep, decide_eq_true hf, decide_eq_true ha]
  rfl

/-- Unit-level block-segment chunks are BLOCK chunks. -/
theorem pouBlockRes_chunk_type {c : Chunk} (implOracle : ParseOracle)
    (content : POUContent) (fileId : Option Nat) (filePath : Option String)
    (hc : c ∈ (pouBlockRes implOracle content fileId filePath).1) :
    c.chunk_type = ChunkType.BLOCK := by
  rw [pouBlockRes] at hc
  split at hc
  · exact extractBlocks_chunk_type implOracle _ _ _ _ fileId filePath _ _ hc
  · cases hc

/-- Unit-level declaration-comment chunks are COMMENT chunks. -/
theorem pouDeclComments_chunk_type {c : Chunk} (content : POUContent)
    (fileId : Option Nat) (filePath : Option String)
    (hc : c ∈ pouDeclComments content fileId filePath) :
    c.chunk_type = ChunkType.COMMENT := by
  rw [pouDeclComments] at hc
  split at hc
  · exact extractComments_chunk_type _ fileId filePath _ _ _ _ _ hc
  · cases hc

/-- Unit-level implementation-comment chunks are COMMENT chunks. -/
theorem pouImplComments_chunk_type {c : Chunk} (content : POUContent)
    (fileId : Option Nat) (filePath : Option String)
    (hc : c ∈ pouImplComments content fileId filePath) :
    c.chunk_type = ChunkType.COMMENT := by
  rw [pouImplComments] at hc
  split at hc
  · exact extractComments_chunk_type _ fileId filePath _ _ _ _ _ hc
  · cases hc

/-- Action block-segment chunks are BLOCK chunks. -/
theorem actionBlockRes_chunk_type {c : Chunk} (implOracle : ParseOracle)
    (a : ActionContent) (content : POUContent) (fileId : Option Nat)
    (filePath : Option String)
    (hc : c ∈ (actionBlockRes implOracle a content fileId filePath).1) :
    c.chunk_type = ChunkType.BLOCK := by
  rw [actionBlockRes] at hc
  split at hc
  · exact extractBlocks_chunk_type implOracle _ _ _ _ fileId filePath _ _ hc
  · cases hc

/-- Action declaration-comment chunks are COMMENT chunks. -/
theorem actionDeclComments_chunk_type {c : Chunk} (a : ActionContent)
    (content : POUContent) (fileId : Option Nat) (filePath : Option String)
    (hc : c ∈ actionDeclComments a content fileId filePath) :
    c.chunk_type = ChunkType.COMMENT := by
  rw [actionDeclComments] at hc
  split at hc
  · exact extractComments_chunk_type _ fileId filePath _ _ _ _ _ hc
  · cases hc

/-- Action implementation-comment chunks are COMMENT chunks. -/
theorem actionImplComments_chunk_type {c : Chunk} (a : ActionContent)
    (content : POUContent) (fileId : Option Nat) (filePath : Option String)
    (hc : c ∈ actionImplComments a content fileId filePath) :
    c.chunk_type = ChunkType.COMMENT := by
  rw [actionImplComments] at hc
  split at hc
  · exact extractComments_chunk_type _ fileId filePath _ _ _ _ _ hc
  · cases hc

/-- C2: on a unit whose own declaration parses but whose single action's
declaration text fails the grammar, the parse still emits the unit chunk and
the action's own ACTION chunk built from the raw combined text, no
FIELD/VARIABLE chunk of the output is tagged with any action, the error list
holds exactly the one message naming the action, and relative to the
counterfactual run in which that declaration parses the output only loses the
action's own variable chunks (every other chunk survives the filter). -/
theorem c2_partial_failure
    (declOracle implOracle declOracle2 : ParseOracle)
    (content : POUContent) (fileId : Option Nat) (filePath : Option String)
    (a : ActionContent) (d : String) (t2 : LNode) (e : String)
    (hact : content.actions = [a])
    (haname : a.name ≠ "")
    (hdecl : a.declaration = some d)
    (hdnb : pyNonBlank d)
    (hfail : declOracle d = .error e)
    (hunit : pyNonBlank content.declaration)
    (hok : ∃ tu, declOracle content.declaration = .ok tu)
    (himpl : ∀ s, ∃ ti, implOracle s = .ok ti)
    (hmeth : ∀ m ∈ content.methods, pyNonBlank m.declaration →
      ∃ tm, declOracle m.declaration = .ok tm)
    (horacle2 : ∀ s, declOracle2 s = if s = d then .ok t2 else declOracle s) :
    (processPOUContent declOracle implOracle content fileId filePath).2 =
      ["Action '" ++ a.name ++ "' declaration parse error: " ++ e] ∧
    (∃ c, createPouChunk content fileId filePath = some c ∧
      c.symbol = content.name ∧
      c ∈ (processPOUContent declOracle implOracle content fileId filePath).1) ∧
    (actionMainChunk a content fileId filePath ∈
       (processPOUContent declOracle implOracle content fileId filePath).1 ∧
     (actionMainChunk a content fileId filePath).symbol =
       content.name ++ "." ++ a.name ∧
     (actionMainChunk a content fileId filePath).chunk_type =
       ChunkType.ACTION ∧
     (actionMainChunk a content fileId filePath).code =
       actionCombinedCode a) ∧
    (∀ c ∈ (processPOUContent declOracle implOracle content fileId filePath).1,
      (c.chunk_type = ChunkType.FIELD ∨ c.chunk_type = ChunkType.VARIABLE) →
      dictGet c.metadata "action_name" = none) ∧
    (processPOUContent declOracle2 implOracle content fileId filePath).2 =
      [] ∧
    (processPOUContent declOracle implOracle content fileId filePath).1 =
      ((processPOUContent declOracle2 implOracle content fileId
        filePath).1).filter (c2Keep a.name) := by
  obtain ⟨tu, htu⟩ := hok
  have hne : content.declaration ≠ d := by
    intro hc
    rw [hc, hfail] at htu
    cases htu
  have hgd : (pyStrip (actionCombinedCode a)).isEmpty = false :=
    actionCombinedCode_nonblank hdecl hdnb
  have hguard : ¬ (pyStrip (actionCombinedCode a)).isEmpty = true := by
    rw [hgd]
    exact Bool.false_ne_true
  have hABe : (actionBlockRes implOracle a content fileId filePath).2 = [] :=
    actionBlockRes_errors_empty implOracle a content fileId filePath himpl
  have hAfail : extractActionChunks declOracle implOracle a content fileId
      filePath =
      (actionMainChunk a content fileId filePath ::
        (actionBlockRes implOracle a content fileId filePath).1 ++
        actionDeclComments a content fileId filePath ++
        actionImplComments a content fileId filePath,
       ("Action '" ++ a.name ++ "' declaration parse error: " ++ e) ::
        (actionBlockRes implOracle a content fileId filePath).2) := by
    rw [extractActionChunks, if_neg hguard,
      actionVarRes_fail content fileId filePath hdecl hdnb hfail]
    rfl
  have hA2 : declOracle2 d = .ok t2 := by
    rw [horacle2 d, if_pos rfl]
  have hAok : extractActionChunks declOracle2 implOracle a content fileId
      filePath =
      (actionMainChunk a content fileId filePath ::
        extractVariableChunksFromTree t2 content fileId filePath
          a.declaration_location (some a.name) none ++
        (actionBlockRes implOracle a content fileId filePath).1 ++
        actionDeclComments a content fileId filePath ++
        actionImplComments a content fileId filePath,
       (actionBlockRes implOracle a content fileId filePath).2) := by
    rw [extractActionChunks, if_neg hguard,
      actionVarRes_ok content fileId filePath hdecl hdnb hA2]
    rfl
  have hPAfail : processActions declOracle implOracle content.actions content
      fileId filePath =
      (actionMainChunk a content fileId filePath ::
        (actionBlockRes implOracle a content fileId filePath).1 ++
        actionDeclComments a content fileId filePath ++
        actionImplComments a content fileId filePath,
       ["Action '" ++ a.name ++ "' declaration parse error: " ++ e]) := by
    rw [hact, processActions]
    show ((extractActionChunks declOracle implOracle a content fileId
        filePath).1 ++ [],
      (extractActionChunks declOracle implOracle a content fileId
        filePath).2 ++ []) = _
    rw [hAfail, hABe]
    simp
  have hPAok : processActions declOracle2 implOracle content.actions content
      fileId filePath =
      (actionMainChunk a content fileId filePath ::
        extractVariableChunksFromTree t2 content fileId filePath
          a.declaration_location (some a.name) none ++
        (actionBlockRes implOracle a content fileId filePath).1 ++
        actionDeclComments a content fileId filePath ++
        actionImplComments a content fileId filePath,
       []) := by
    rw [hact, processActions]
    show ((extractActionChunks declOracle2 implOracle a content fileId
        filePath).1 ++ [],
      (extractActionChunks declOracle2 implOracle a content fileId
        filePath).2 ++ []) = _
    rw [hAok, hABe]
    simp
  have hV1 : pouVarRes declOracle content fileId filePath =
      (extractVariableChunksFromTree tu content fileId filePath none none none,
       []) :=
    pouVarRes_ok fileId filePath hunit htu
  have hd2u : declOracle2 content.declaration = declOracle content.declaration := by
    rw [horacle2, if_neg hne]
  have hV2 : pouVarRes declOracle2 content fileId filePath =
      pouVarRes declOracle content fileId filePath := by
    rw [pouVarRes, pouVarRes, hd2u]
  have hBe : (pouBlockRes implOracle content fileId filePath).2 = [] :=
    pouBlockRes_errors_empty implOracle content fileId filePath himpl
  have hMagree : ∀ m ∈ content.methods,
      declOracle2 m.declaration = declOracle m.declaration := by
    intro m hm
    rw [horacle2]
    by_cases hmd : m.declaration = d
    · exfalso
      obtain ⟨tm, htm⟩ := hmeth m hm (by rw [hmd]; exact hdnb)
      rw [hmd, hfail] at htm
      cases htm
    · rw [if_neg hmd]
  have hM2 : processMethods declOracle2 implOracle content.methods content
      fileId filePath =
      processMethods declOracle implOracle content.methods content fileId
        filePath :=
    processMethods_congr declOracle declOracle2 implOracle content.methods
      content fileId filePath hMagree
  have hMe : (processMethods declOracle implOracle content.methods content
      fileId filePath).2 = [] :=
    processMethods_errors_empty declOracle implOracle content.methods content
      fileId filePath hmeth himpl
  obtain ⟨cpou, hcpou, hcsym⟩ := createPouChunk_some content fileId filePath hunit
  refine ⟨?_, ⟨cpou, hcpou, hcsym, ?_⟩, ⟨?_, rfl, rfl, rfl⟩, ?_, ?_, ?_⟩
  · rw [processPOUContent_eq, hV1, hBe, hPAfail, hMe]
    simp
  · rw [processPOUContent_eq, hcpou]
    simp
  · rw [processPOUContent_eq, hPAfail]
    simp
  · intro c hc hf
    rw [processPOUContent_eq, hcpou, hV1, hPAfail] at hc
    simp only [Option.toList_some, List.mem_append, List.mem_cons,
      List.mem_nil_iff, or_false, or_assoc] at hc
    rcases hc with rfl | hc | hc | hc | hc | rfl | hc | hc | hc | hc | hc
    · rcases hf with hf | hf
      · exact absurd hf (createPouChunk_not_fv content fileId filePath hcpou).1
      · exact absurd hf (createPouChunk_not_fv content fileId filePath hcpou).2
    · exact (extractVariableChunks_meta tu content fileId filePath none none
        none hc).2
    · rw [pouBlockRes_chunk_type implOracle content fileId filePath hc] at hf
      rcases hf with hf | hf <;> cases hf
    · rw [pouDeclComments_chunk_type content fileId filePath hc] at hf
      rcases hf with hf | hf <;> cases hf
    · rw [pouImplComments_chunk_type content fileId filePath hc] at hf
      rcases hf with hf | hf <;> cases hf
    · rcases hf with hf | hf <;> cases hf
    · rw [actionBlockRes_chunk_type implOracle a content fileId filePath
        hc] at hf
      rcases hf with hf | hf <;> cases hf
    · rw [actionDeclComments_chunk_type a content fileId filePath hc] at hf
      rcases hf with hf | hf <;> cases hf
    · rw [actionImplComments_chunk_type a content fileId filePath hc] at hf
      rcases hf with hf | hf <;> cases hf
    · exact processMethods_fv_no_action declOracle implOracle content.methods
        content fileId filePath hc hf
    · rw [processProperties_chunk_type content.properties content fileId
        filePath hc] at hf
      rcases hf with hf | hf <;> cases hf
  · rw [processPOUContent_eq, hV2, hV1, hBe, hPAok, hM2, hMe]
    simp
  · have hPOf : List.filter (c2Keep a.name) ((some cpou).toList) =
        (some cpou).toList := by
      simp only [Option.toList_some, List.filter_cons, List.filter_nil]
      rw [c2Keep_of_not_fv (by
        intro hf
        rcases hf with hf | hf
        · exact (createPouChunk_not_fv content fileId filePath hcpou).1 hf
        · exact (createPouChunk_not_fv content fileId filePath hcpou).2 hf)]
      rfl
    have hVf : List.filter (c2Keep a.name)
        (extractVariableChunksFromTree tu content fileId filePath none none
          none) =
        extractVariableChunksFromTree tu content fileId filePath none none
          none :=
      List.filter_eq_self.mpr (fun c hc =>
        c2Keep_of_none (extractVariableChunks_meta tu content fileId
          filePath none none none hc).2)
    have hBf : List.filter (c2Keep a.name)
        (pouBlockRes implOracle content fileId filePath).1 =
        (pouBlockRes implOracle content fileId filePath).1 :=
      List.filter_eq_self.mpr (fun c hc => c2Keep_of_not_fv (by
        rw [pouBlockRes_chunk_type implOracle content fileId filePath hc]
        intro hf
        rcases hf with hf | hf <;> cases hf))
    have hDCf : List.filter (c2Keep a.name)
        (pouDeclComments content fileId filePath) =
        pouDeclComments content fileId filePath :=
      List.filter_eq_self.mpr (fun c hc => c2Keep_of_not_fv (by
        rw [pouDeclComments_chunk_type content fileId filePath hc]
        intro hf
        rcases hf with hf | hf <;> cases hf))
    have hICf : List.filter (c2Keep a.name)
        (pouImplComments content fileId filePath) =
        pouImplComments content fileId filePath :=
      List.filter_eq_self.mpr (fun c hc => c2Keep_of_not_fv (by
        rw [pouImplComments_chunk_type content fileId filePath hc]
        intro hf
        rcases hf with hf | hf <;> cases hf))
    have hABf : List.filter (c2Keep a.name)
        (actionBlockRes implOracle a content fileId filePath).1 =
        (actionBlockRes implOracle a content fileId filePath).1 :=
      List.filter_eq_self.mpr (fun c hc => c2Keep_of_not_fv (by
        rw [actionBlockRes_chunk_type implOracle a content fileId filePath hc]
        intro hf
        rcases hf with hf | hf <;> cases hf))
    have hADCf : List.filter (c2Keep a.name)
        (actionDeclComments a content fileId filePath) =
        actionDeclComments a content fileId filePath :=
      List.filter_eq_self.mpr (fun c hc => c2Keep_of_not_fv (by
        rw [actionDeclComments_chunk_type a content fileId filePath hc]
        intro hf
        rcases hf with hf | hf <;> cases hf))
    have hAICf : List.filter (c2Keep a.name)
        (actionImplComments a content fileId filePath) =
        actionImplComments a content fileId filePath :=
      List.filter_eq_self.mpr (fun c hc => c2Keep_of_not_fv (by
        rw [actionImplComments_chunk_type a content fileId filePath hc]
        intro hf
        rcases hf with hf | hf <;> cases hf))
    have hMf : List.filter (c2Keep a.name)
        (processMethods declOracle implOracle content.methods content fileId
          filePath).1 =
        (processMethods declOracle implOracle content.methods content fileId
          filePath).1 :=
      List.filter_eq_self.mpr (fun c hc => by
        by_cases hfv : c.chunk_type = ChunkType.FIELD ∨
            c.chunk_type = ChunkType.VARIABLE
        · exact c2Keep_of_none (processMethods_fv_no_action declOracle
            implOracle content.methods content fileId filePath hc hfv)
        · exact c2Keep_of_not_fv hfv)
    have hPf : List.filter (c2Keep a.name)
        (processProperties content.properties content fileId filePath) =
        processProperties content.properties content fileId filePath :=
      List.filter_eq_self.mpr (fun c hc => c2Keep_of_not_fv (by
        rw [processProperties_chunk_type content.properties content fileId
          filePath hc]
        intro hf
        rcases hf with hf | hf <;> cases hf))
    have hAVnil : List.filter (c2Keep a.name)
        (extractVariableChunksFromTree t2 content fileId filePath
          a.declaration_location (some a.name) none) = [] :=
      List.filter_eq_nil_iff.mpr (fun c hc => by
        have hmeta := extractVariableChunks_meta t2 content fileId filePath
          a.declaration_location (some a.name) none hc
        have hav : dictGet c.metadata "action_name" = some (.str a.name) := by
          rw [hmeta.2, actionEntryVal, if_pos haname]
        rw [c2Keep_false_of hmeta.1 hav]
        exact Bool.false_ne_true)
    have hmainKeep : c2Keep a.name (actionMainChunk a content fileId
        filePath) = true :=
      c2Keep_of_not_fv (by intro hf; rcases hf with hf | hf <;> cases hf)
    rw [processPOUContent_eq declOracle implOracle content fileId filePath,
      processPOUContent_eq declOracle2 implOracle content fileId filePath,
      hPAfail, hPAok, hV2, hV1, hM2, hcpou]
    simp only [List.filter_append, List.filter_cons, hmainKeep, if_true,
      hPOf, hVf, hBf, hDCf, hICf, hMf, hPf, hAVnil, hABf, hADCf, hAICf,
      List.nil_append, List.singleton_append]

/-- A minimal parse tree used by the C2 oracles. -/
def c2Tree : LNode := .tree "start" none []

/-- The single action of the C2 scenario: its declaration text fails. -/
def c2Action : ActionContent :=
  { name := "Act", id := "a1", declaration := some "BAD",
    implementation := "" }

/-- The C2 unit: a valid main declaration plus the one failing action. -/
def c2Content : POUContent :=
  { name := "P1", id := "p1", pou_type := "PROGRAM",
    declaration := "VAR x : BOOL; END_VAR", implementation := "",
    actions := [c2Action], methods := [], properties := [] }

/-- A declaration oracle failing exactly on the action's text. -/
def c2DeclOracle : ParseOracle :=
  fun s => if s = "BAD" then .error "synx" else .ok c2Tree

/-- An implementation oracle that always succeeds. -/
def c2ImplOracle : ParseOracle := fun _ => .ok c2Tree

/-- The counterfactual declaration oracle in which the action parses. -/
def c2DeclOracle2 : ParseOracle :=
  fun s => if s = "BAD" then .ok c2Tree else c2DeclOracle s

/-- C2 instantiated on a concrete unit with one failing action. -/
theorem c2_partial_failure_witness :
    (processPOUContent c2DeclOracle c2ImplOracle c2Content (some 1)
      (some "f.TcPOU")).2 =
      ["Action '" ++ "Act" ++ "' declaration parse error: " ++ "synx"] :=
  (c2_partial_failure c2DeclOracle c2ImplOracle c2DeclOracle2 c2Content
    (some 1) (some "f.TcPOU") c2Action "BAD" c2Tree "synx" rfl (by decide) rfl
    (by decide) rfl (by decide) ⟨c2Tree, rfl⟩ (fun _ => ⟨c2Tree, rfl⟩)
    (fun m hm _ => absurd hm (List.not_mem_nil m)) (fun _ => rfl)).1

/-- Correspondence between a persisted chunk and its pipeline twin: same
name, text, line range, the concept derived from the chunk type, and the
same metadata enriched with the `chunk_type_hint` entry. -/
def chunkMatches (c : Chunk) (u : UniversalChunk) : Prop :=
  u.name = c.symbol ∧ u.content = c.code ∧ u.start_line = c.start_line ∧
  u.end_line = c.end_line ∧ u.concept = mapChunkTypeToConcept c.chunk_type ∧
  u.metadata =
    dictSet c.metadata "chunk_type_hint" (.str (pyLower c.chunk_type.pyName))

/-- `Forall₂` across an append on both sides. -/
theorem forall2_append {α β : Type} {R : α → β → Prop}
    {l1 l2 : List α} {u1 u2 : List β} (h1 : List.Forall₂ R l1 u1)
    (h2 : List.Forall₂ R l2 u2) : List.Forall₂ R (l1 ++ l2) (u1 ++ u2) := by
  induction h1 with
  | nil => exact h2
  | cons hx _ ih => exact List.Forall₂.cons hx ih

/-- `Forall₂` between two maps of the same list. -/
theorem forall2_map {α β γ : Type} {R : β → γ → Prop} {l : List α}
    {f : α → β} {g : α → γ} (h : ∀ x ∈ l, R (f x) (g x)) :
    List.Forall₂ R (l.map f) (l.map g) := by
  induction l with
  | nil => exact List.Forall₂.nil
  | cons x rest ih =>
      exact List.Forall₂.cons (h x (List.mem_cons_self x rest))
        (ih (fun y hy => h y (List.mem_cons_of_mem x hy)))

/-- The two per-declaration variable extractions correspond. -/
theorem varDeclPair (varDecl : LNode) (content : POUContent)
    (fileId : Option Nat) (filePath : Option String) (varClass : String)
    (retain persistent constant : Bool) (declLoc : Option SourceLocation)
    (actionName methodName : Option String) :
    List.Forall₂ chunkMatches
      (extractVarDeclarationChunk varDecl content fileId filePath varClass
        retain persistent constant declLoc actionName methodName)
      (extractVarDeclUniversalChunk varDecl content varClass retain persistent
        constant declLoc actionName methodName) := by
  dsimp only [extractVarDeclarationChunk, extractVarDeclUniversalChunk]
  exact forall2_map (fun x _ => ⟨rfl, rfl, rfl, rfl, rfl, rfl⟩)

/-- The two per-var-block folds correspond. -/
theorem varBlockFoldPair (cs : List LNode) (content : POUContent)
    (fileId : Option Nat) (filePath : Option String)
    (location : Option SourceLocation) (actionName methodName : Option String) :
    ∀ varClass retain persistent constant,
    List.Forall₂ chunkMatches
      (varBlockFold cs content fileId filePath location actionName methodName
        varClass retain persistent constant)
      (varBlockFoldU cs content location actionName methodName varClass retain
        persistent constant) := by
  induction cs with
  | nil => intro _ _ _ _; exact List.Forall₂.nil
  | cons c rest ih =>
      intro varClass retain persistent constant
      rcases c with ⟨d, mm, cc⟩ | ⟨ty, v⟩
      · rw [varBlockFold, varBlockFoldU]
        by_cases h1 : d = "var_block_start"
        · rw [if_pos h1, if_pos h1]
          exact ih _ _ _ _
        · rw [if_neg h1, if_neg h1]
          by_cases h2 : d = "var_qualifier"
          · rw [if_pos h2, if_pos h2]
            exact ih _ _ _ _
          · rw [if_neg h2, if_neg h2]
            by_cases h3 : d = "var_declaration"
            · rw [if_pos h3, if_pos h3]
              exact forall2_append
                (varDeclPair _ content fileId filePath _ _ _ _ _ _ _)
                (ih _ _ _ _)
            · rw [if_neg h3, if_neg h3]
              exact ih _ _ _ _
      · rw [varBlockFold, varBlockFoldU]
        exact ih _ _ _ _

/-- The two var-block loops correspond. -/
theorem varBlocksChunksPair (blocks : List LNode) (content : POUContent)
    (fileId : Option Nat) (filePath : Option String)
    (location : Option SourceLocation) (actionName methodName : Option String) :
    List.Forall₂ chunkMatches
      (varBlocksChunks blocks content fileId filePath location actionName
        methodName)
      (varBlocksChunksU blocks content location actionName methodName) := by
  induction blocks with
  | nil => exact List.Forall₂.nil
  | cons b rest ih =>
      rw [varBlocksChunks, varBlocksChunksU]
      exact forall2_append
        (varBlockFoldPair _ content fileId filePath location actionName
          methodName _ _ _ _) ih

/-- The two variable extractions from a parse tree correspond. -/
theorem extractVariablePair (tree : LNode) (content : POUContent)
    (fileId : Option Nat) (filePath : Option String)
    (declLoc : Option SourceLocation) (actionName methodName : Option String) :
    List.Forall₂ chunkMatches
      (extractVariableChunksFromTree tree content fileId filePath declLoc
        actionName methodName)
      (extractVarUniversalChunksFromTree tree content declLoc actionName
        methodName) :=
  varBlocksChunksPair _ content fileId filePath _ actionName methodName

/-- The two per-node block creations correspond. -/
theorem createBlockPair (node : LNode) (implementation : String)
    (loc : Option SourceLocation) (pouName pouType : String)
    (fileId : Option Nat) (filePath : Option String)
    (actionName methodName : Option String) :
    List.Forall₂ chunkMatches
      (createBlockChunk node implementation loc pouName pouType fileId
        filePath actionName methodName).toList
      (createBlockUniversalChunk node implementation loc pouName pouType
        actionName methodName).toList := by
  rcases hm : node.metaOf with _ | m
  · simp only [createBlockChunk, createBlockUniversalChunk, hm,
      Option.toList_none]
    exact List.Forall₂.nil
  · simp only [createBlockChunk, createBlockUniversalChunk, hm,
      Option.toList_some]
    exact List.Forall₂.cons ⟨rfl, rfl, rfl, rfl, rfl, rfl⟩ List.Forall₂.nil

/-- The two statement-node loops correspond. -/
theorem blockNodesPair (nodes : List LNode) (implementation : String)
    (loc : Option SourceLocation) (pouName pouType : String)
    (fileId : Option Nat) (filePath : Option String)
    (actionName methodName : Option String) :
    List.Forall₂ chunkMatches
      (blockChunksOfNodes nodes implementation loc pouName pouType fileId
        filePath actionName methodName)
      (blockUniversalChunksOfNodes nodes implementation loc pouName pouType
        actionName methodName) := by
  induction nodes with
  | nil => exact List.Forall₂.nil
  | cons n rest ih =>
      rw [blockChunksOfNodes, blockUniversalChunksOfNodes]
      exact forall2_append
        (createBlockPair n implementation loc pouName pouType fileId filePath
          actionName methodName) ih

/-- The two implementation block extractions correspond, chunks and errors. -/
theorem extractBlocksPair (implOracle : ParseOracle) (implementation : String)
    (loc : Option SourceLocation) (pouName pouType : String)
    (fileId : Option Nat) (filePath : Option String)
    (actionName methodName : Option String) :
    List.Forall₂ chunkMatches
      (extractBlocksFromImplementation implOracle implementation loc pouName
        pouType fileId filePath actionName methodName).1
      (extractBlockUniversalChunksFromImplementation implOracle implementation
        loc pouName pouType actionName methodName).1 ∧
    (extractBlockUniversalChunksFromImplementation implOracle implementation
      loc pouName pouType actionName methodName).2 =
    (extractBlocksFromImplementation implOracle implementation loc pouName
      pouType fileId filePath actionName methodName).2 := by
  rcases ho : implOracle implementation with e | t
  · simp only [extractBlocksFromImplementation,
      extractBlockUniversalChunksFromImplementation, ho]
    exact ⟨List.Forall₂.nil, trivial⟩
  · simp only [extractBlocksFromImplementation,
      extractBlockUniversalChunksFromImplementation, ho]
    exact ⟨blockNodesPair _ implementation loc pouName pouType fileId filePath
      actionName methodName, trivial⟩

/-- The two per-match comment creations correspond. -/
theorem createCommentPair (content : String) (line : Int)
    (fileId : Option Nat) (filePath : Option String)
    (pouName pouType commentType : String)
    (methodName actionName : Option String) :
    chunkMatches
      (createCommentChunk content line fileId filePath pouName pouType
        commentType methodName actionName)
      (createCommentUniversalChunk content line pouName pouType commentType
        methodName actionName) :=
  ⟨rfl, rfl, rfl, rfl, rfl, rfl⟩

/-- The two comment-match loops correspond. -/
theorem commentMatchesPair (ms : List (Nat × Nat)) (source : String)
    (fileId : Option Nat) (filePath : Option String) (pouName pouType : String)
    (baseLine : Int) (commentType : String)
    (methodName actionName : Option String) :
    List.Forall₂ chunkMatches
      (commentChunksOfMatches ms source fileId filePath pouName pouType
        baseLine commentType methodName actionName)
      (commentUniversalChunksOfMatches ms source pouName pouType baseLine
        commentType methodName actionName) := by
  induction ms with
  | nil => exact List.Forall₂.nil
  | cons m rest ih =>
      rw [commentChunksOfMatches, commentUniversalChunksOfMatches]
      exact List.Forall₂.cons
        (createCommentPair _ _ fileId filePath pouName pouType commentType
          methodName actionName) ih

/-- The two comment extractions correspond. -/
theorem extractCommentsPair (source : String) (fileId : Option Nat)
    (filePath : Option String) (pouName pouType : String) (baseLine : Int)
    (methodName actionName : Option String) :
    List.Forall₂ chunkMatches
      (extractCommentChunks source fileId filePath pouName pouType baseLine
        methodName actionName)
      (extractCommentUniversalChunks source pouName pouType baseLine
        methodName actionName) := by
  rw [extractCommentChunks, extractCommentUniversalChunks]
  exact forall2_append
    (commentMatchesPair _ source fileId filePath pouName pouType baseLine
      "block" methodName actionName)
    (commentMatchesPair _ source fileId filePath pouName pouType baseLine
      "line" methodName actionName)

/-- The two unit-chunk creations correspond. -/
theorem pouPair (content : POUContent) (fileId : Option Nat)
    (filePath : Option String) :
    List.Forall₂ chunkMatches (createPouChunk content fileId filePath).toList
      (createPouUniversalChunk content).toList := by
  simp only [createPouChunk, createPouUniversalChunk]
  by_cases hg : (pyStrip (content.declaration ++
      (if pyNonBlank content.implementation then "\n\n" ++ content.implementation
       else ""))).isEmpty = true
  · rw [if_pos hg, if_pos hg]
    exact List.Forall₂.nil
  · rw [if_neg hg, if_neg hg]
    exact List.Forall₂.cons ⟨rfl, rfl, rfl, rfl, rfl, rfl⟩ List.Forall₂.nil

/-- The two action variable segments correspond, chunks and errors. -/
theorem actionVarPair (declOracle : ParseOracle) (a : ActionContent)
    (content : POUContent) (fileId : Option Nat) (filePath : Option String) :
    List.Forall₂ chunkMatches
      (actionVarRes declOracle a content fileId filePath).1
      (actionVarResU declOracle a content).1 ∧
    (actionVarResU declOracle a content).2 =
    (actionVarRes declOracle a content fileId filePath).2 := by
  cases hA : actionDeclAttempted a
  · simp only [actionVarRes, actionVarResU, hA, Bool.false_eq_true, if_false]
    exact ⟨List.Forall₂.nil, trivial⟩
  · simp only [actionVarRes, actionVarResU, hA, if_true]
    rcases ho : declOracle (a.declaration.getD "") with e | t
    · simp only [ho]
      exact ⟨List.Forall₂.nil, by simp⟩
    · simp only [ho]
      exact ⟨extractVariablePair t content fileId filePath
        a.declaration_location (some a.name) none, by simp⟩

/-- The two action block segments correspond, chunks and errors. -/
theorem actionBlockPair (implOracle : ParseOracle) (a : ActionContent)
    (content : POUContent) (fileId : Option Nat) (filePath : Option String) :
    List.Forall₂ chunkMatches
      (actionBlockRes implOracle a content fileId filePath).1
      (actionBlockResU implOracle a content).1 ∧
    (actionBlockResU implOracle a content).2 =
    (actionBlockRes implOracle a content fileId filePath).2 := by
  cases himp : pyNonBlank a.implementation
  · simp only [actionBlockRes, actionBlockResU, himp, Bool.false_eq_true,
      if_false]
    exact ⟨List.Forall₂.nil, trivial⟩
  · simp only [actionBlockRes, actionBlockResU, himp, if_true]
    exact extractBlocksPair implOracle a.implementation
      a.implementation_location content.name (pyUpper content.pou_type)
      fileId filePath (some a.name) none

/-- The two action declaration-comment segments correspond. -/
theorem actionDeclCommentsPair (a : ActionContent) (content : POUContent)
    (fileId : Option Nat) (filePath : Option String) :
    List.Forall₂ chunkMatches (actionDeclComments a content fileId filePath)
      (actionDeclCommentsU a content) := by
  cases hA : actionDeclAttempted a
  · simp only [actionDeclComments, actionDeclCommentsU, hA,
      Bool.false_eq_true, if_false]
    exact List.Forall₂.nil
  · simp only [actionDeclComments, actionDeclCommentsU, hA, if_true]
    exact extractCommentsPair _ fileId filePath content.name
      (pyUpper content.pou_type) _ none (some a.name)

/-- The two action implementation-comment segments correspond. -/
theorem actionImplCommentsPair (a : ActionContent) (content : POUContent)
    (fileId : Option Nat) (filePath : Option String) :
    List.Forall₂ chunkMatches (actionImplComments a content fileId filePath)
      (actionImplCommentsU a content) := by
  cases himp : pyNonBlank a.implementation
  · simp only [actionImplComments, actionImplCommentsU, himp,
      Bool.false_eq_true, if_false]
    exact List.Forall₂.nil
  · simp only [actionImplComments, actionImplCommentsU, himp, if_true]
    exact extractCommentsPair _ fileId filePath content.name
      (pyUpper content.pou_type) _ none (some a.name)

/-- The two per-action extractions correspond, chunks and errors. -/
theorem extractActionPair (declOracle implOracle : ParseOracle)
    (a : ActionContent) (content : POUContent) (fileId : Option Nat)
    (filePath : Option String) :
    List.Forall₂ chunkMatches
      (extractActionChunks declOracle implOracle a content fileId filePath).1
      (extractActionUniversalChunks declOracle implOracle a content).1 ∧
    (extractActionUniversalChunks declOracle implOracle a content).2 =
    (extractActionChunks declOracle implOracle a content fileId filePath).2 := by
  by_cases hg : (pyStrip (actionCombinedCode a)).isEmpty = true
  · rw [extractActionChunks, extractActionUniversalChunks, if_pos hg,
      if_pos hg]
    exact ⟨List.Forall₂.nil, rfl⟩
  · rw [extractActionChunks, extractActionUniversalChunks, if_neg hg,
      if_neg hg]
    constructor
    · exact List.Forall₂.cons ⟨rfl, rfl, rfl, rfl, rfl, rfl⟩
        (forall2_append (forall2_append (forall2_append
          (actionVarPair declOracle a content fileId filePath).1
          (actionBlockPair implOracle a content fileId filePath).1)
          (actionDeclCommentsPair a content fileId filePath))
          (actionImplCommentsPair a content fileId filePath))
    · show (actionVarResU declOracle a content).2 ++
        (actionBlockResU implOracle a content).2 =
        (actionVarRes declOracle a content fileId filePath).2 ++
        (actionBlockRes implOracle a content fileId filePath).2
      rw [(actionVarPair declOracle a content fileId filePath).2,
        (actionBlockPair implOracle a content fileId filePath).2]

/-- The two action loops correspond, chunks and errors. -/
theorem processActionsPair (declOracle implOracle : ParseOracle)
    (actions : List ActionContent) (content : POUContent) (fileId : Option Nat)
    (filePath : Option String) :
    List.Forall₂ chunkMatches
      (processActions declOracle implOracle actions content fileId filePath).1
      (processActionsU declOracle implOracle actions content).1 ∧
    (processActionsU declOracle implOracle actions content).2 =
    (processActions declOracle implOracle actions content fileId filePath).2 := by
  induction actions with
  | nil => exact ⟨List.Forall₂.nil, rfl⟩
  | cons a rest ih =>
      rw [processActions, processActionsU]
      constructor
      · exact forall2_append
          (extractActionPair declOracle implOracle a content fileId filePath).1
          ih.1
      · show (extractActionUniversalChunks declOracle implOracle a content).2 ++
          (processActionsU declOracle implOracle rest content).2 =
          (extractActionChunks declOracle implOracle a content fileId
            filePath).2 ++
          (processActions declOracle implOracle rest content fileId filePath).2
        rw [(extractActionPair declOracle implOracle a content fileId
          filePath).2, ih.2]

/-- The two per-method extractions correspond, chunks and errors. -/
theorem extractMethodPair (declOracle implOracle : ParseOracle)
    (m : MethodContent) (content : POUContent) (fileId : Option Nat)
    (filePath : Option String) :
    List.Forall₂ chunkMatches
      (extractMethodChunks declOracle implOracle m content fileId filePath).1
      (extractMethodUniversalChunks declOracle implOracle m content).1 ∧
    (extractMethodUniversalChunks declOracle implOracle m content).2 =
    (extractMethodChunks declOracle implOracle m content fileId filePath).2 := by
  simp only [extractMethodChunks, extractMethodUniversalChunks]
  by_cases hg : (pyStrip (methodCombinedCode m)).isEmpty = true
  · rw [if_pos hg, if_pos hg]
    exact ⟨List.Forall₂.nil, rfl⟩
  · rw [if_neg hg, if_neg hg]
    constructor
    · refine List.Forall₂.cons ⟨rfl, rfl, rfl, rfl, rfl, rfl⟩ ?_
      refine forall2_append (forall2_append (forall2_append ?_ ?_) ?_) ?_
      · cases hdm : pyNonBlank m.declaration
        · simp only [hdm, Bool.false_eq_true, if_false]
          exact List.Forall₂.nil
        · simp only [hdm, if_true]
          rcases ho : declOracle m.declaration with e | t
          · simp only [ho]
            exact List.Forall₂.nil
          · simp only [ho]
            exact extractVariablePair t content fileId filePath
              m.declaration_location none (some m.name)
      · cases himp : pyNonBlank m.implementation
        · simp only [himp, Bool.false_eq_true, if_false]
          exact List.Forall₂.nil
        · simp only [himp, if_true]
          exact (extractBlocksPair implOracle m.implementation
            m.implementation_location content.name (pyUpper content.pou_type)
            fileId filePath none (some m.name)).1
      · cases hdm : pyNonBlank m.declaration
        · simp only [hdm, Bool.false_eq_true, if_false]
          exact List.Forall₂.nil
        · simp only [hdm, if_true]
          exact extractCommentsPair m.declaration fileId filePath content.name
            (pyUpper content.pou_type) _ (some m.name) none
      · cases himp : pyNonBlank m.implementation
        · simp only [himp, Bool.false_eq_true, if_false]
          exact List.Forall₂.nil
        · simp only [himp, if_true]
          exact extractCommentsPair m.implementation fileId filePath
            content.name (pyUpper content.pou_type) _ (some m.name) none
    · cases hdm : pyNonBlank m.declaration
      · cases himp : pyNonBlank m.implementation
        · simp only [hdm, himp, Bool.false_eq_true, if_false]
        · simp only [hdm, himp, Bool.false_eq_true, if_false, if_true,
            List.nil_append]
          exact (extractBlocksPair implOracle m.implementation
            m.implementation_location content.name (pyUpper content.pou_type)
            fileId filePath none (some m.name)).2
      · rcases ho : declOracle m.declaration with e | t
        · cases himp : pyNonBlank m.implementation
          · simp only [hdm, himp, ho, Bool.false_eq_true, if_false, if_true]
          · simp only [hdm, himp, ho, if_true]
            rw [(extractBlocksPair implOracle m.implementation
              m.implementation_location content.name (pyUpper content.pou_type)
              fileId filePath none (some m.name)).2]
        · cases himp : pyNonBlank m.implementation
          · simp only [hdm, himp, ho, Bool.false_eq_true, if_false, if_true]
          · simp only [hdm, himp, ho, if_true, List.nil_append]
            exact (extractBlocksPair implOracle m.implementation
              m.implementation_location content.name (pyUpper content.pou_type)
              fileId filePath none (some m.name)).2

/-- The two method loops correspond, chunks and errors. -/
theorem processMethodsPair (declOracle implOracle : ParseOracle)
    (methods : List MethodContent) (content : POUContent) (fileId : Option Nat)
    (filePath : Option String) :
    List.Forall₂ chunkMatches
      (processMethods declOracle implOracle methods content fileId filePath).1
      (processMethodsU declOracle implOracle methods content).1 ∧
    (processMethodsU declOracle implOracle methods content).2 =
    (processMethods declOracle implOracle methods content fileId filePath).2 := by
  induction methods with
  | nil => exact ⟨List.Forall₂.nil, rfl⟩
  | cons m rest ih =>
      rw [processMethods, processMethodsU]
      constructor
      · exact forall2_append
          (extractMethodPair declOracle implOracle m content fileId filePath).1
          ih.1
      · show (extractMethodUniversalChunks declOracle implOracle m content).2 ++
          (processMethodsU declOracle implOracle rest content).2 =
          (extractMethodChunks declOracle implOracle m content fileId
            filePath).2 ++
          (processMethods declOracle implOracle rest content fileId filePath).2
        rw [(extractMethodPair declOracle implOracle m content fileId
          filePath).2, ih.2]

/-- The two per-property extractions correspond. -/
theorem extractPropertyPair (prop : PropertyContent) (content : POUContent)
    (fileId : Option Nat) (filePath : Option String) :
    List.Forall₂ chunkMatches
      (extractPropertyChunks prop content fileId filePath)
      (extractPropertyUniversalChunks prop content) := by
  simp only [extractPropertyChunks, extractPropertyUniversalChunks]
  by_cases hg : (pyStrip (propertyCombinedCode prop)).isEmpty = true
  · rw [if_pos hg, if_pos hg]
    exact List.Forall₂.nil
  · rw [if_neg hg, if_neg hg]
    exact List.Forall₂.cons ⟨rfl, rfl, rfl, rfl, rfl, rfl⟩ List.Forall₂.nil

/-- The two property loops correspond. -/
theorem processPropertiesPair (properties : List PropertyContent)
    (content : POUContent) (fileId : Option Nat) (filePath : Option String) :
    List.Forall₂ chunkMatches
      (processProperties properties content fileId filePath)
      (processPropertiesU properties content) := by
  induction properties with
  | nil => exact List.Forall₂.nil
  | cons p rest ih =>
      rw [processProperties, processPropertiesU]
      exact forall2_append (extractPropertyPair p content fileId filePath) ih

/-- The unit-level variable segment of `_process_pou_content_to_universal`. -/
def pouVarResU (declOracle : ParseOracle) (content : POUContent) :
    List UniversalChunk × List String :=
  if pyNonBlank content.declaration then
    match declOracle content.declaration with
    | .ok declTree =>
        (extractVarUniversalChunksFromTree declTree content none none none, [])
    | .error e =>
        ([], ["Declaration parse error in " ++ content.name ++ ": " ++ e])
  else ([], [])

/-- The unit-level block segment of `_process_pou_content_to_universal`. -/
def pouBlockResU (implOracle : ParseOracle) (content : POUContent) :
    List UniversalChunk × List String :=
  if pyNonBlank content.implementation then
    extractBlockUniversalChunksFromImplementation implOracle
      content.implementation content.implementation_location content.name
      (pyUpper content.pou_type) none none
  else ([], [])

/-- The unit-level declaration-comment segment of
`_process_pou_content_to_universal`. -/
def pouDeclCommentsU (content : POUContent) : List UniversalChunk :=
  if pyNonBlank content.declaration then
    extractCommentUniversalChunks content.declaration content.name
      (pyUpper content.pou_type)
      (match content.declaration_location with
       | some loc => loc.line
       | none => 1) none none
  else []

/-- The unit-level implementation-comment segment of
`_process_pou_content_to_universal`. -/
def pouImplCommentsU (content : POUContent) : List UniversalChunk :=
  if pyNonBlank content.implementation then
    extractCommentUniversalChunks content.implementation content.name
      (pyUpper content.pou_type)
      (match content.implementation_location with
       | some loc => loc.line
       | none =>
           match content.declaration_location with
           | some loc => loc.line
           | none => 1) none none
  else []

/-- `_process_pou_content_to_universal` decomposed into its emission
segments. -/
theorem processPOUContentToUniversal_eq (declOracle implOracle : ParseOracle)
    (content : POUContent) :
    processPOUContentToUniversal declOracle implOracle content =
      ((createPouUniversalChunk content).toList ++
        (pouVarResU declOracle content).1 ++
        (pouBlockResU implOracle content).1 ++
        pouDeclCommentsU content ++
        pouImplCommentsU content ++
        (processActionsU declOracle implOracle content.actions content).1 ++
        (processMethodsU declOracle implOracle content.methods content).1 ++
        processPropertiesU content.properties content,
       (pouVarResU declOracle content).2 ++
        (pouBlockResU implOracle content).2 ++
        (processActionsU declOracle implOracle content.actions content).2 ++
        (processMethodsU declOracle implOracle content.methods content).2) := rfl

/-- The two unit-level variable segments correspond, chunks and errors. -/
theorem pouVarResPair (declOracle : ParseOracle) (content : POUContent)
    (fileId : Option Nat) (filePath : Option String) :
    List.Forall₂ chunkMatches
      (pouVarRes declOracle content fileId filePath).1
      (pouVarResU declOracle content).1 ∧
    (pouVarResU declOracle content).2 =
    (pouVarRes declOracle content fileId filePath).2 := by
  cases hd : pyNonBlank content.declaration
  · simp only [pouVarRes, pouVarResU, hd, Bool.false_eq_true, if_false]
    exact ⟨List.Forall₂.nil, trivial⟩
  · simp only [pouVarRes, pouVarResU, hd, if_true]
    rcases ho : declOracle content.declaration with e | t
    · simp only [ho]
      exact ⟨List.Forall₂.nil, by simp⟩
    · simp only [ho]
      exact ⟨extractVariablePair t content fileId filePath none none none,
        by simp⟩

/-- The two unit-level block segments correspond, chunks and errors. -/
theorem pouBlockResPair (implOracle : ParseOracle) (content : POUContent)
    (fileId : Option Nat) (filePath : Option String) :
    List.Forall₂ chunkMatches
      (pouBlockRes implOracle content fileId filePath).1
      (pouBlockResU implOracle content).1 ∧
    (pouBlockResU implOracle content).2 =
    (pouBlockRes implOracle content fileId filePath).2 := by
  cases himp : pyNonBlank content.implementation
  · simp only [pouBlockRes, pouBlockResU, himp, Bool.false_eq_true, if_false]
    exact ⟨List.Forall₂.nil, trivial⟩
  · simp only [pouBlockRes, pouBlockResU, himp, if_true]
    exact extractBlocksPair implOracle content.implementation
      content.implementation_location content.name (pyUpper content.pou_type)
      fileId filePath none none

/-- The two unit-level declaration-comment segments correspond. -/
theorem pouDeclCommentsPair (content : POUContent) (fileId : Option Nat)
    (filePath : Option String) :
    List.Forall₂ chunkMatches (pouDeclComments content fileId filePath)
      (pouDeclCommentsU content) := by
  cases hd : pyNonBlank content.declaration
  · simp only [pouDeclComments, pouDeclCommentsU, hd, Bool.false_eq_true,
      if_false]
    exact List.Forall₂.nil
  · simp only [pouDeclComments, pouDeclCommentsU, hd, if_true]
    exact extractCommentsPair content.declaration fileId filePath content.name
      (pyUpper content.pou_type) _ none none

/-- The two unit-level implementation-comment segments correspond. -/
theorem pouImplCommentsPair (content : POUContent) (fileId : Option Nat)
    (filePath : Option String) :
    List.Forall₂ chunkMatches (pouImplComments content fileId filePath)
      (pouImplCommentsU content) := by
  cases himp : pyNonBlank content.implementation
  · simp only [pouImplComments, pouImplCommentsU, himp, Bool.false_eq_true,
      if_false]
    exact List.Forall₂.nil
  · simp only [pouImplComments, pouImplCommentsU, himp, if_true]
    exact extractCommentsPair content.implementation fileId filePath
      content.name (pyUpper content.pou_type) _ none none

/-- A minimal parse tree used by the C1 oracles. -/
def c1Tree : LNode := .tree "start" none []

/-- An oracle that always succeeds, used by the C1 counterexample. -/
def c1Oracle : ParseOracle := fun _ => .ok c1Tree

/-- A minimal unit on which both pipelines succeed. -/
def c1Content : POUContent :=
  { name := "P", id := "i", pou_type := "PROGRAM", declaration := "X",
    implementation := "", actions := [], methods := [], properties := [] }

/-- C1, counterexample: on a unit where both forms succeed and list the same
symbols, the pipeline form's metadata values are NOT identical to the
persisted form's — every universal chunk carries an extra `chunk_type_hint`
entry. -/
theorem c1_metadata_counterexample :
    (processPOUContent c1Oracle c1Oracle c1Content (some 1) (some "f")).1.map
        (fun c => c.symbol) =
      (processPOUContentToUniversal c1Oracle c1Oracle c1Content).1.map
        (fun u => u.name) ∧
    ¬ ((processPOUContent c1Oracle c1Oracle c1Content (some 1)
          (some "f")).1.map (fun c => c.metadata) =
        (processPOUContentToUniversal c1Oracle c1Oracle c1Content).1.map
          (fun u => u.metadata)) := by
  refine ⟨?_, ?_⟩ <;> decide

/-- C1 (amended): the two forms enumerate the same logical records — for
every input the error lists are equal and the chunk lists correspond
pairwise: same name, text, line range, concept derived from the chunk type,
and the same metadata up to the pipeline's extra `chunk_type_hint` entry. -/
theorem c1_pipeline_correspondence (declOracle implOracle : ParseOracle)
    (content : POUContent) (fileId : Option Nat) (filePath : Option String) :
    (processPOUContentToUniversal declOracle implOracle content).2 =
      (processPOUContent declOracle implOracle content fileId filePath).2 ∧
    List.Forall₂ chunkMatches
      (processPOUContent declOracle implOracle content fileId filePath).1
      (processPOUContentToUniversal declOracle implOracle content).1 := by
  rw [processPOUContent_eq, processPOUContentToUniversal_eq]
  constructor
  · show (pouVarResU declOracle content).2 ++
      (pouBlockResU implOracle content).2 ++
      (processActionsU declOracle implOracle content.actions content).2 ++
      (processMethodsU declOracle implOracle content.methods content).2 =
      (pouVarRes declOracle content fileId filePath).2 ++
      (pouBlockRes implOracle content fileId filePath).2 ++
      (processActions declOracle implOracle content.actions content fileId
        filePath).2 ++
      (processMethods declOracle implOracle content.methods content fileId
        filePath).2
    rw [(pouVarResPair declOracle content fileId filePath).2,
      (pouBlockResPair implOracle content fileId filePath).2,
      (processActionsPair declOracle implOracle content.actions content
        fileId filePath).2,
      (processMethodsPair declOracle implOracle content.methods content
        fileId filePath).2]
  · exact forall2_append (forall2_append (forall2_append (forall2_append
      (forall2_append (forall2_append (forall2_append
        (pouPair content fileId filePath)
        (pouVarResPair declOracle content fileId filePath).1)
        (pouBlockResPair implOracle content fileId filePath).1)
        (pouDeclCommentsPair content fileId filePath))
        (pouImplCommentsPair content fileId filePath))
        (processActionsPair declOracle implOracle content.actions content
          fileId filePath).1)
        (processMethodsPair declOracle implOracle content.methods content
          fileId filePath).1)
        (processPropertiesPair content.properties content fileId filePath)
